import Mathlib

/-!
# geoyee/eventbus: a shallow embedding of `src/eventbus.hpp`

The header defines two classes.

* `Property`, a box around one `std::any`.  A `std::any` is either empty or
  holds a value together with the identity of its (decayed) type, so it is
  embedded as `Option (Σ t : τ, V t)`, where `τ` is the collection of type
  identities (`typeid`) and `V t` the values of type `t`.
* `EventBus`, the topic registry, the latest-payload cache and the id counter.
  Unordered maps are association lists with unique keys; `shared_ptr` and
  `weak_ptr` are handles carrying the identity of the control block made by
  `std::make_shared`, and `use_count` is the number of `shared_ptr` copies the
  bus stores.

Scope of the model: calls are sequential (one call runs to completion before
the next starts); a callback is a function of the bundle which returns or
throws and which does not call back into the bus; `std::async` and allocation
do not fail for lack of resources (`EventBus.Fits` says which states the memory
of the process can hold, where that matters).  Inside one `notify` the callbacks run one
after the other, each to its end: the future of every `std::async` is a
temporary, whose destructor waits for the task.  `size_t` is 64 bits wide.
-/

set_option autoImplicit false

/-! ## Property -/

/-- Exceptions thrown by the accessors of `Property`: `std::bad_any_cast` is the only one. -/
inductive Exception where
  | bad_any_cast
  deriving DecidableEq, Repr

/-- The result of `typeid`: `std::any::type()` is `typeid(void)` for an empty
`std::any` and the identity of the stored type otherwise. -/
inductive TypeInfo (τ : Type) where
  | void
  | of (t : τ)
  deriving DecidableEq, Repr

/-- One line written to `std::cerr` by the catch blocks of the accessors:
`"Type mismatch! Requested: " << typeid(U).name() << ", Stored: " << _value.type().name()`. -/
structure Diagnostic (τ : Type) where
  requested : TypeInfo τ
  stored : TypeInfo τ
  deriving DecidableEq, Repr

/-- What a call of an accessor does besides touching the box: it returns a
value or throws, and it may have written lines to `std::cerr`. -/
structure Outcome (τ : Type) (α : Type) where
  result : Except Exception α
  cerr : List (Diagnostic τ)

/-- The class `Property`: its only member is `std::any _value`. -/
structure Property (τ : Type) (V : τ → Type) where
  _value : Option (Σ t : τ, V t)

section PropertyOps

variable {τ : Type} {V : τ → Type}

/-- The call `std::any_cast<U&>(a)` (and `std::any_cast<const U&>(a)`): the stored
value when the stored type is exactly `U`, `std::bad_any_cast` otherwise. -/
def any_cast [DecidableEq τ] (U : τ) (a : Option (Σ t : τ, V t)) : Except Exception (V U) :=
  match a with
  | none => .error .bad_any_cast
  | some ⟨t, v⟩ => if h : t = U then .ok (h ▸ v) else .error .bad_any_cast

/-- Default constructor `Property() noexcept = default`: an empty box. -/
def Property.empty : Property τ V := ⟨none⟩

/-- The occupied box that holds `value`, of type `T`. -/
def Property.ofValue (T : τ) (value : V T) : Property τ V := ⟨some ⟨T, value⟩⟩

/-- The argument `value` of the constructor `Property(T&& value)` and of the assignment
`operator=(T&& value)`, by what overload resolution and `std::any` make of it.

* `value T v`: the argument is stored as it is, as a value of its decayed type `T`.  This is
  every argument whose decayed type is neither `std::any` nor `Property` (and, for the
  assignment only, a non-const lvalue `Property`, for which the template is the better match
  and which `std::any` stores as a value of type `Property`).
* `any a`: the argument is a `std::any` with content `a`.  `_value(std::forward<T>(value))`
  and `_value = std::forward<T>(value)` then run the copy or move members of `std::any`,
  which take over the content: the `std::any` itself is not stored.
* `property p`: the argument is a `Property`.  The converting constructor is disabled by its
  `enable_if`, so the defaulted copy or move constructor runs; for a const lvalue or an rvalue
  the defaulted copy or move assignment is chosen over the template.  They take over the
  content of `p`. -/
inductive Argument (τ : Type) (V : τ → Type) where
  | value (T : τ) (v : V T)
  | any (a : Option (Σ t : τ, V t))
  | property (p : Property τ V)

/-- What the `std::any` of the box holds after it was constructed from, or assigned, the
argument. -/
def Argument.content : Argument τ V → Option (Σ t : τ, V t)
  | .value T v => some ⟨T, v⟩
  | .any a => a
  | .property p => p._value

/-- Assignment of one argument to a box: the template `operator=(T&& value)` with
`_value = std::forward<T>(value)`, or the defaulted copy and move assignments.  What the
box held before is dropped. -/
def Property.assign (_p : Property τ V) (arg : Argument τ V) : Property τ V := ⟨arg.content⟩

/-- Member `has_value`: `_value.has_value()`. -/
def Property.has_value (p : Property τ V) : Bool := p._value.isSome

/-- Member `type() const noexcept`: `_value.type()`. -/
def Property.type (p : Property τ V) : TypeInfo τ :=
  match p._value with
  | none => .void
  | some ⟨t, _⟩ => .of t

/-- Member `reset() noexcept`: `_value.reset()`. -/
def Property.reset (_p : Property τ V) : Property τ V := ⟨none⟩

/-- Member `swap(Property& other) noexcept`: the pair is (this, other) after the call. -/
def Property.swap (p other : Property τ V) : Property τ V × Property τ V := (other, p)

variable [DecidableEq τ]

/-- Member `get_ref<T>()`. -/
def Property.get_ref (p : Property τ V) (U : τ) : Outcome τ (V U) :=
  if !p.has_value then
    ⟨.error .bad_any_cast, []⟩
  else
    match any_cast U p._value with
    | .ok v => ⟨.ok v, []⟩
    | .error e => ⟨.error e, [⟨.of U, p.type⟩]⟩

/-- Member `get_cref<T>() const`. -/
def Property.get_cref (p : Property τ V) (U : τ) : Outcome τ (V U) :=
  if !p.has_value then
    ⟨.error .bad_any_cast, []⟩
  else
    match any_cast U p._value with
    | .ok v => ⟨.ok v, []⟩
    | .error e => ⟨.error e, [⟨.of U, p.type⟩]⟩

/-- Member `get_value<T>() const`. -/
def Property.get_value (p : Property τ V) (U : τ) : Outcome τ (V U) :=
  if !p.has_value then
    ⟨.error .bad_any_cast, []⟩
  else
    match any_cast U p._value with
    | .ok v => ⟨.ok v, []⟩
    | .error e => ⟨.error e, [⟨.of U, p.type⟩]⟩

/-- Member `extract<T>()`: the outcome of the call and the box after it. -/
def Property.extract (p : Property τ V) (U : τ) : Outcome τ (V U) × Property τ V :=
  if !p.has_value then
    (⟨.error .bad_any_cast, []⟩, p)
  else
    match any_cast U p._value with
    | .ok value => (⟨.ok value, []⟩, p.reset)
    | .error e => (⟨.error e, [⟨.of U, p.type⟩]⟩, p)

/-- The failure the specification calls `EmptyAccess`: the `throw std::bad_any_cast()`
of the `has_value` guard, before which nothing is written to `std::cerr`. -/
def Outcome.EmptyAccess {α : Type} (o : Outcome τ α) : Prop :=
  o.result = .error .bad_any_cast ∧ o.cerr = []

/-- The failure the specification calls `TypeMismatch`: the `std::bad_any_cast` of
`std::any_cast`, rethrown by the catch block after its line on `std::cerr`. -/
def Outcome.TypeMismatch {α : Type} (o : Outcome τ α) (requested stored : τ) : Prop :=
  o.result = .error .bad_any_cast ∧ o.cerr = [⟨.of requested, .of stored⟩]

/-- The call returns `v` and writes nothing. -/
def Outcome.Returns {α : Type} (o : Outcome τ α) (v : α) : Prop :=
  o.result = .ok v ∧ o.cerr = []

end PropertyOps

/-! ## Unordered maps -/

/-- The container `std::unordered_map<κ, β>`: an association list in which a key occurs at
most once.  The order of the entries is never observed by the code. -/
abbrev unordered_map (κ β : Type) := List (κ × β)

section UnorderedMap

variable {κ β : Type} [DecidableEq κ]

/-- Lookup `m.find(k)`: the mapped value, or `none` for `m.end()`. -/
def unordered_map.find (m : unordered_map κ β) (k : κ) : Option β :=
  match m with
  | [] => none
  | (k', v) :: rest => if k' = k then some v else unordered_map.find rest k

/-- Assignment `m[k] = v`: replaces the value of an existing key, inserts the key otherwise. -/
def unordered_map.assign (m : unordered_map κ β) (k : κ) (v : β) : unordered_map κ β :=
  match m with
  | [] => [(k, v)]
  | (k', v') :: rest =>
    if k' = k then (k, v) :: rest else (k', v') :: unordered_map.assign rest k v

/-- Removal `m.erase(k)`. -/
def unordered_map.erase (m : unordered_map κ β) (k : κ) : unordered_map κ β :=
  m.filter (fun e => e.1 ≠ k)

end UnorderedMap

/-! ## EventBus -/

/-- The alias `PropertyMap = std::unordered_map<std::string, Property>`. -/
abbrev PropertyMap (τ : Type) (V : τ → Type) := unordered_map String (Property τ V)

/-- The alias `CallBack = std::function<void(const PropertyMap& props)>`: a call returns,
or throws something (described by a string). -/
abbrev CallBack (τ : Type) (V : τ → Type) := PropertyMap τ V → Except String Unit

/-- The alias `CallBackSPtr = std::shared_ptr<CallBack>`: `addr` is the identity of the
control block, `fn` the callable it owns. -/
structure CallBackSPtr (τ : Type) (V : τ → Type) where
  addr : Nat
  fn : CallBack τ V

/-- The alias `CallBackWPtr = std::weak_ptr<CallBack>`. -/
structure CallBackWPtr (τ : Type) (V : τ → Type) where
  addr : Nat
  fn : CallBack τ V

/-- The struct `EventBus::TopicData` (its mutex plays no part in a sequential run). -/
structure TopicData (τ : Type) (V : τ → Type) where
  callbacks : List (CallBackWPtr τ V)
  callbackMap : unordered_map String (CallBackSPtr τ V)

/-- The class `EventBus`.  `heap_next` is not a member: it is the identity the next
`std::make_shared` will give to its control block. -/
structure EventBus (τ : Type) (V : τ → Type) where
  _idCounter : Nat
  _topics : unordered_map String (TopicData τ V)
  _latestData : unordered_map String (PropertyMap τ V)
  heap_next : Nat

/-- One `std::async(std::launch::async, *callback, props)` of `notify`: the callback
locked, the copy of the bundle it is run on, and how that run ends (the future is
discarded, so the end of the run is seen by nobody). -/
structure Dispatch (τ : Type) (V : τ → Type) where
  callback : CallBackSPtr τ V
  props : PropertyMap τ V
  outcome : Except String Unit

section EventBusOps

variable {τ : Type} {V : τ → Type}

/-- Number of bits of `size_t`. -/
def SIZE_BITS : Nat := 64

/-- The function `std::to_string` at `size_t`: the decimal numeral. -/
def to_string (n : Nat) : String := Nat.repr n

/-- Conversion `std::weak_ptr(const std::shared_ptr&)`, as in `callbacks.emplace_back(callback_ptr)`. -/
def CallBackSPtr.weak (sp : CallBackSPtr τ V) : CallBackWPtr τ V := ⟨sp.addr, sp.fn⟩

/-- The `use_count` of a control block: the `shared_ptr` copies stored in the bus, which
are the values of the `callbackMap` of every topic. -/
def use_count (topics : unordered_map String (TopicData τ V)) (addr : Nat) : Nat :=
  (topics.map (fun t => t.2.callbackMap.countP (fun e => e.2.addr = addr))).sum

/-- Member `std::weak_ptr::expired()`. -/
def CallBackWPtr.expired (wp : CallBackWPtr τ V)
    (topics : unordered_map String (TopicData τ V)) : Bool :=
  use_count topics wp.addr = 0

/-- Member `std::weak_ptr::lock()`: `none` is the null `shared_ptr`. -/
def CallBackWPtr.lock (wp : CallBackWPtr τ V)
    (topics : unordered_map String (TopicData τ V)) : Option (CallBackSPtr τ V) :=
  if wp.expired topics then none else some ⟨wp.addr, wp.fn⟩

/-- The bus right after `EventBus() = default`. -/
def EventBus.fresh : EventBus τ V :=
  { _idCounter := 0, _topics := [], _latestData := [], heap_next := 0 }

/-- Member `generateId`: `std::to_string(_idCounter.fetch_add(1))`. -/
def EventBus.generateId (b : EventBus τ V) : String × EventBus τ V :=
  (to_string b._idCounter, { b with _idCounter := (b._idCounter + 1) % 2 ^ SIZE_BITS })

/-- Member `notify`: the bus after the call and the dispatches made, in order. -/
def EventBus.notify (b : EventBus τ V) (topic : String) (props : PropertyMap τ V) :
    EventBus τ V × List (Dispatch τ V) :=
  let b1 := { b with _latestData := unordered_map.assign b._latestData topic props }
  match unordered_map.find b1._topics topic with
  | none => (b1, [])
  | some topic_data =>
    let callbacks := topic_data.callbacks
    (b1, callbacks.filterMap (fun cb =>
      match cb.lock b1._topics with
      | some callback => some ⟨callback, props, callback.fn props⟩
      | none => none))

/-- Member `getLatest`: the returned flag and the out-parameter `data` after the call. -/
def EventBus.getLatest (b : EventBus τ V) (topic : String) (data : PropertyMap τ V) :
    Bool × PropertyMap τ V :=
  match unordered_map.find b._latestData topic with
  | some latest => (true, latest)
  | none => (false, data)

/-- Member `listen`: the bus after the call and the id returned. -/
def EventBus.listen (b : EventBus τ V) (topic : String) (func : CallBack τ V) :
    EventBus τ V × String :=
  let callback_ptr : CallBackSPtr τ V := ⟨b.heap_next, func⟩
  let (id, b1) := b.generateId
  let topic_data : TopicData τ V :=
    (unordered_map.find b1._topics topic).getD { callbacks := [], callbackMap := [] }
  let topic_data1 : TopicData τ V :=
    { callbacks := topic_data.callbacks ++ [callback_ptr.weak],
      callbackMap := unordered_map.assign topic_data.callbackMap id callback_ptr }
  ({ b1 with _topics := unordered_map.assign b1._topics topic topic_data1,
             heap_next := b.heap_next + 1 }, id)

/-- Member `unlisten`. -/
def EventBus.unlisten (b : EventBus τ V) (topic : String) (id : String) : EventBus τ V :=
  match unordered_map.find b._topics topic with
  | none => b
  | some topic_data =>
    let erased : TopicData τ V :=
      { topic_data with callbackMap := unordered_map.erase topic_data.callbackMap id }
    let topics1 := unordered_map.assign b._topics topic erased
    let pruned : TopicData τ V :=
      { erased with callbacks := erased.callbacks.filter (fun wp => !(wp.expired topics1)) }
    { b with _topics := unordered_map.assign topics1 topic pruned }

/-- A call of one of the four public members, with its arguments. -/
inductive Call (τ : Type) (V : τ → Type) where
  | listen (topic : String) (func : CallBack τ V)
  | unlisten (topic : String) (id : String)
  | notify (topic : String) (props : PropertyMap τ V)
  | getLatest (topic : String) (data : PropertyMap τ V)

/-- What a call gives back to its caller (for `notify`: the dispatches it made). -/
inductive Return (τ : Type) (V : τ → Type) where
  | id (s : String)
  | unit
  | dispatched (ds : List (Dispatch τ V))
  | latest (found : Bool) (data : PropertyMap τ V)

/-- One call on the bus. -/
def EventBus.call (b : EventBus τ V) : Call τ V → EventBus τ V × Return τ V
  | .listen topic func => ((b.listen topic func).1, .id (b.listen topic func).2)
  | .unlisten topic id => (b.unlisten topic id, .unit)
  | .notify topic props => ((b.notify topic props).1, .dispatched (b.notify topic props).2)
  | .getLatest topic data =>
    (b, .latest (b.getLatest topic data).1 (b.getLatest topic data).2)

/-- The bus after a sequence of calls. -/
def EventBus.run (b : EventBus τ V) : List (Call τ V) → EventBus τ V
  | [] => b
  | c :: cs => EventBus.run (b.call c).1 cs

/-- What the calls of a sequence return, in order. -/
def EventBus.returns (b : EventBus τ V) : List (Call τ V) → List (Return τ V)
  | [] => []
  | c :: cs => (b.call c).2 :: EventBus.returns (b.call c).1 cs

/-- The bus states a program can see: those a sequence of calls leads to from the fresh bus. -/
def EventBus.Reachable (b : EventBus τ V) : Prop :=
  ∃ calls : List (Call τ V), EventBus.run EventBus.fresh calls = b

end EventBusOps

/-! ## Reading a run -/

section RunDefs

variable {τ : Type} {V : τ → Type}

/-- The call is a `notify` on `topic`. -/
def Call.publishes (topic : String) : Call τ V → Bool
  | .notify t _ => t = topic
  | _ => false

/-- The call is a `listen`. -/
def Call.isListen : Call τ V → Bool
  | .listen _ _ => true
  | _ => false

/-- The call is an `unlisten`. -/
def Call.isUnlisten : Call τ V → Bool
  | .unlisten _ _ => true
  | _ => false

/-- Number of `listen` calls of a sequence. -/
def nListens (calls : List (Call τ V)) : Nat := calls.countP Call.isListen

/-- The ids returned by the `listen` calls of a run, in order. -/
def listenIds : List (Return τ V) → List String
  | [] => []
  | .id s :: rs => s :: listenIds rs
  | _ :: rs => listenIds rs

/-- The dispatches made to the callback object of identity `addr`. -/
def dispatchesTo (ds : List (Dispatch τ V)) (addr : Nat) : List (Dispatch τ V) :=
  ds.filter (fun d => d.callback.addr = addr)

end RunDefs

/-! ## Invariant of the registry -/

section InvariantDefs

variable {τ : Type} {V : τ → Type}

/-- The `shared_ptr` copies of the control block `addr` that one topic stores. -/
def TopicData.owns (td : TopicData τ V) (addr : Nat) : Nat :=
  td.callbackMap.countP (fun e => e.2.addr = addr)

/-- What holds of the registry in every state a program can see: the counter fits a
`size_t`, every control block named in the registry was made before now, and every entry
of an id-to-callback map has exactly one weak reference in the dispatch list of its topic. -/
structure EventBus.WellFormed (b : EventBus τ V) : Prop where
  counter_lt : b._idCounter < 2 ^ SIZE_BITS
  weak_lt : ∀ t ∈ b._topics, ∀ wp ∈ t.2.callbacks, wp.addr < b.heap_next
  shared_lt : ∀ t ∈ b._topics, ∀ e ∈ t.2.callbackMap, e.2.addr < b.heap_next
  listed_once : ∀ t ∈ b._topics, ∀ e ∈ t.2.callbackMap,
    t.2.callbacks.filter (fun wp => wp.addr = e.2.addr) = [e.2.weak]

end InvariantDefs

section RegistrationDefs

variable {τ : Type} {V : τ → Type}

/-- The id `id` is registered under `topic`, and names the callback object `sp`:
`_topics[topic].callbackMap[id]` is `sp`. -/
def EventBus.Registered (b : EventBus τ V) (topic id : String) (sp : CallBackSPtr τ V) : Prop :=
  ∃ td, unordered_map.find b._topics topic = some td ∧
    unordered_map.find td.callbackMap id = some sp

end RegistrationDefs

section OwnershipDefs

variable {τ : Type} {V : τ → Type}

end OwnershipDefs

section LocalityDefs

variable {τ : Type} {V : τ → Type}

/-- A weak reference of the dispatch list of one topic refers to a callback object that only
the id-to-callback map of the same topic can own. -/
def EventBus.Local (b : EventBus τ V) : Prop :=
  ∀ t1 ∈ b._topics, ∀ t2 ∈ b._topics, ∀ wp ∈ t1.2.callbacks, ∀ e ∈ t2.2.callbackMap,
    wp.addr = e.2.addr → t1.1 = t2.1

end LocalityDefs

section TightDefs

variable {τ : Type} {V : τ → Type}

/-- Member `size()` of `std::unordered_map`. -/
def unordered_map.size {κ β : Type} (m : unordered_map κ β) : Nat := m.length

end TightDefs

section EventDefs

variable {τ : Type} {V : τ → Type}

/-- What happens during one `notify`, as the publisher and the callbacks go through it. -/
inductive Event where
  | scheduled (addr : Nat)
  | finished (addr : Nat)
  | returned
  deriving DecidableEq, Repr

/-- The events of the loop of `notify`, in order.  The statement
`(void)std::async(std::launch::async, *callback, props);` starts a thread that runs the
callback and makes a temporary `std::future`; the temporary is destroyed at the end of the
statement, and the destructor of a future made by `std::async` with `std::launch::async`
waits until the task has ended. -/
def dispatch_events : List (Dispatch τ V) → List Event
  | [] => []
  | d :: ds =>
    Event.scheduled d.callback.addr :: Event.finished d.callback.addr :: dispatch_events ds

/-- The events of one call of `notify`: those of its loop, then the return to the publisher. -/
def EventBus.notify_events (b : EventBus τ V) (topic : String) (props : PropertyMap τ V) :
    List Event :=
  dispatch_events (b.notify topic props).2 ++ [Event.returned]

end EventDefs

section CapacityDefs

variable {τ : Type} {V : τ → Type}

/-- Number of `weak_ptr` objects stored in the dispatch lists of the registry. -/
def weak_total (topics : unordered_map String (TopicData τ V)) : Nat :=
  (topics.map (fun t => t.2.callbacks.length)).sum

/-- The dispatch lists hold fewer than 2^64 weak references.  The elements of the vectors
`callbacks` are distinct objects in the memory of one process, and a `size_t` addresses 2^64
bytes, so this holds of every state in which a call of the code has returned: when there is
no room for one more element, `emplace_back` throws and `listen` returns no id. -/
def EventBus.Fits (b : EventBus τ V) : Prop := weak_total b._topics < 2 ^ SIZE_BITS

end CapacityDefs

/-! ## Buses that differ by expired weak references -/

section SimulationDefs

variable {τ : Type} {V : τ → Type}

/-- Two entries of `_topics` with the same topic and the same id-to-callback map, whose
dispatch lists hold the same weak references among those that `live` selects. -/
def SameLive (live : CallBackWPtr τ V → Bool) (t t1 : String × TopicData τ V) : Prop :=
  t.1 = t1.1 ∧ t.2.callbackMap = t1.2.callbackMap ∧
    t.2.callbacks.filter live = t1.2.callbacks.filter live

/-- Two buses that differ only by expired weak references in their dispatch lists. -/
structure EventBus.Sim (b b1 : EventBus τ V) : Prop where
  idCounter : b1._idCounter = b._idCounter
  heap : b1.heap_next = b.heap_next
  latest : b1._latestData = b._latestData
  topics : List.Forall₂ (SameLive (fun wp => !wp.expired b._topics)) b._topics b1._topics

end SimulationDefs

/-! ## The sample program `src/sample/main.cpp` -/

/-- The types `src/sample/main.cpp` stores in its bundles. -/
inductive SampleType where
  | int
  | double
  | string
  deriving DecidableEq, Repr

/-- The values of the types of the sample program. -/
@[reducible] def SampleType.Val : SampleType → Type
  | .int => Int
  | .double => Float
  | .string => String

/-- Member `at` of `std::unordered_map`: throws `std::out_of_range` for a missing key. -/
def unordered_map.at_ {κ β : Type} [DecidableEq κ] (m : unordered_map κ β) (k : κ) :
    Except String β :=
  match unordered_map.find m k with
  | some v => .ok v
  | none => .error "std::out_of_range"

/-- What a `get_cref` inside a callback lets escape: the exception, as a callback sees it. -/
def Outcome.toExcept {τ α : Type} (o : Outcome τ α) : Except String α :=
  match o.result with
  | .ok v => .ok v
  | .error .bad_any_cast => .error "std::bad_any_cast"

/-- The lambda `src/sample/main.cpp` passes to `listen`: it reads `time` as a string, `size`
as an `int` and `value` as a `double` (what it prints is not modelled). -/
def main_callback : CallBack SampleType SampleType.Val := fun data => do
  let time ← unordered_map.at_ data "time"
  let _ ← (time.get_cref SampleType.string).toExcept
  let size ← unordered_map.at_ data "size"
  let _ ← (size.get_cref SampleType.int).toExcept
  let value ← unordered_map.at_ data "value"
  let _ ← (value.get_cref SampleType.double).toExcept
  pure ()

/-- A callback that returns at once. -/
def quiet_callback : CallBack SampleType SampleType.Val := fun _ => .ok ()

/-- The bundle built by `data["size"] = 3; data["value"] = 0.5;`. -/
def bundle_size_value : PropertyMap SampleType SampleType.Val :=
  unordered_map.assign
    (unordered_map.assign [] "size"
      (Property.assign Property.empty (Argument.value SampleType.int (3 : Int))))
    "value" (Property.assign Property.empty (Argument.value SampleType.double (0.5 : Float)))

/-- The bundle built by `data["size"] = 4;`. -/
def bundle_size_four : PropertyMap SampleType SampleType.Val :=
  unordered_map.assign [] "size"
    (Property.assign Property.empty (Argument.value SampleType.int (4 : Int)))

/-- Scenario, step 1: the fresh bus after `listen("DATA-UPDATE", cb)`. -/
def scenario_listened (cb : CallBack SampleType SampleType.Val) :
    EventBus SampleType SampleType.Val :=
  (EventBus.fresh.listen "DATA-UPDATE" cb).1

/-- Scenario, step 2: then after `notify("DATA-UPDATE", {size: 3, value: 0.5})`. -/
def scenario_published (cb : CallBack SampleType SampleType.Val) :
    EventBus SampleType SampleType.Val :=
  ((scenario_listened cb).notify "DATA-UPDATE" bundle_size_value).1

/-- Scenario, step 3: then after `unlisten("DATA-UPDATE", "0")`. -/
def scenario_unlistened (cb : CallBack SampleType SampleType.Val) :
    EventBus SampleType SampleType.Val :=
  (scenario_published cb).unlisten "DATA-UPDATE" "0"

/-- Scenario, step 4: then after `notify("DATA-UPDATE", {size: 4})`. -/
def scenario_republished (cb : CallBack SampleType SampleType.Val) :
    EventBus SampleType SampleType.Val :=
  ((scenario_unlistened cb).notify "DATA-UPDATE" bundle_size_four).1

/-- The bus after `listen("DATA-UPDATE", main_callback)` alone. -/
def bus_one_listener : EventBus SampleType SampleType.Val :=
  EventBus.fresh.run [Call.listen "DATA-UPDATE" main_callback]

/-- The bus after `main_callback`, then `quiet_callback`, were registered under "DATA-UPDATE". -/
def bus_main_then_quiet : EventBus SampleType SampleType.Val :=
  EventBus.fresh.run
    [Call.listen "DATA-UPDATE" main_callback, Call.listen "DATA-UPDATE" quiet_callback]

/-- The bus after `quiet_callback`, then `main_callback`, were registered under "DATA-UPDATE". -/
def bus_quiet_then_main : EventBus SampleType SampleType.Val :=
  EventBus.fresh.run
    [Call.listen "DATA-UPDATE" quiet_callback, Call.listen "DATA-UPDATE" main_callback]

/-- The bus after `main_callback` was registered under "DATA-UPDATE" and `quiet_callback`
under "OTHER". -/
def bus_two_topics : EventBus SampleType SampleType.Val :=
  EventBus.fresh.run
    [Call.listen "DATA-UPDATE" main_callback, Call.listen "OTHER" quiet_callback]

/-! ## Theorems: Property -/

section PropertyTheorems

variable {τ : Type} {V : τ → Type} [DecidableEq τ]

theorem any_cast_same (T : τ) (v : V T) :
    any_cast T (some ⟨T, v⟩ : Option (Σ t : τ, V t)) = .ok v := by
  simp [any_cast]

theorem any_cast_other (T U : τ) (u : V U) (h : U ≠ T) :
    any_cast T (some ⟨U, u⟩ : Option (Σ t : τ, V t)) = .error .bad_any_cast := by
  simp [any_cast, h]

theorem any_cast_ok_iff (T : τ) (a : Option (Σ t : τ, V t)) (v : V T) :
    any_cast T a = .ok v ↔ a = some ⟨T, v⟩ := by
  constructor
  · intro h
    match a, h with
    | none, h => simp [any_cast] at h
    | some ⟨t, x⟩, h =>
      by_cases ht : t = T
      · subst ht
        simp [any_cast] at h
        rw [h]
      · simp [any_cast, ht] at h
  · rintro rfl
    exact any_cast_same T v

end PropertyTheorems
section PropertyClaims

variable {τ : Type} {V : τ → Type} [DecidableEq τ]

theorem get_value_result (p : Property τ V) (T : τ) :
    (p.get_value T).result = any_cast T p._value := by
  unfold Property.get_value Property.has_value
  cases h : p._value with
  | none => simp [any_cast]
  | some s =>
    simp only [Option.isSome_some, Bool.not_true, Bool.false_eq_true, if_false]
    cases h2 : any_cast T (some s) with
    | ok v => rfl
    | error e => rfl

theorem get_ref_eq_get_value (p : Property τ V) (T : τ) : p.get_ref T = p.get_value T := rfl

theorem get_cref_eq_get_value (p : Property τ V) (T : τ) : p.get_cref T = p.get_value T := rfl

theorem get_value_empty (p : Property τ V) (T : τ) (h : p.has_value = false) :
    (p.get_value T).EmptyAccess := by
  simp [Property.get_value, h, Outcome.EmptyAccess]

theorem get_value_other (p : Property τ V) (T U : τ) (u : V U) (h : p._value = some ⟨U, u⟩)
    (hne : U ≠ T) : (p.get_value T).TypeMismatch T U := by
  simp [Property.get_value, Property.has_value, Property.type, h, any_cast_other T U u hne,
    Outcome.TypeMismatch]

theorem get_value_same (p : Property τ V) (T : τ) (v : V T) (h : p._value = some ⟨T, v⟩) :
    (p.get_value T).Returns v := by
  simp [Property.get_value, Property.has_value, h, any_cast_same, Outcome.Returns]

/-- C5: `get_value<T>`, `get_ref<T>` and `get_cref<T>` fail with EmptyAccess on an empty box,
fail with TypeMismatch on a box holding a value of a type `U` different from `T`, return the
stored value on a box holding a value of type `T`, and return a value in no other case. -/
theorem C5_typed_access_is_exact (p : Property τ V) (T : τ) :
    (p.has_value = false →
      (p.get_value T).EmptyAccess ∧ (p.get_ref T).EmptyAccess ∧ (p.get_cref T).EmptyAccess) ∧
    (∀ (U : τ) (u : V U), p._value = some ⟨U, u⟩ → U ≠ T →
      (p.get_value T).TypeMismatch T U ∧ (p.get_ref T).TypeMismatch T U ∧
        (p.get_cref T).TypeMismatch T U) ∧
    (∀ v : V T, p._value = some ⟨T, v⟩ →
      (p.get_value T).Returns v ∧ (p.get_ref T).Returns v ∧ (p.get_cref T).Returns v) ∧
    (∀ v : V T, (p.get_value T).result = .ok v ∨ (p.get_ref T).result = .ok v ∨
        (p.get_cref T).result = .ok v → p._value = some ⟨T, v⟩) := by
  simp only [get_ref_eq_get_value, get_cref_eq_get_value, and_self, or_self]
  refine ⟨get_value_empty p T, fun U u h hne => get_value_other p T U u h hne,
    fun v h => get_value_same p T v h, fun v h => ?_⟩
  rw [get_value_result] at h
  exact (any_cast_ok_iff T p._value v).1 h

/-- Witness of C5: `int` requested against a stored `double` 0.5 is a TypeMismatch, an
`int` requested from the empty box is an EmptyAccess, and `int` requested from a box holding
the `int` 3 returns 3. -/
theorem C5_typed_access_is_exact_witness :
    ((@Property.ofValue SampleType SampleType.Val SampleType.double (0.5 : Float)).get_value
        SampleType.int).TypeMismatch SampleType.int SampleType.double ∧
    ((@Property.empty SampleType SampleType.Val).get_ref SampleType.int).EmptyAccess ∧
    ((@Property.ofValue SampleType SampleType.Val SampleType.int (3 : Int)).get_cref
        SampleType.int).Returns (3 : Int) :=
  ⟨((C5_typed_access_is_exact (@Property.ofValue SampleType SampleType.Val SampleType.double
      (0.5 : Float)) SampleType.int).2.1 SampleType.double (0.5 : Float) rfl (by decide)).1,
   ((C5_typed_access_is_exact (@Property.empty SampleType SampleType.Val)
      SampleType.int).1 rfl).2.1,
   ((C5_typed_access_is_exact (@Property.ofValue SampleType SampleType.Val SampleType.int
      (3 : Int)) SampleType.int).2.2.1 (3 : Int) rfl).2.2⟩

/-- C6: on a box holding `v` of type `T`, `extract<T>` returns `v` and leaves the box empty;
every following `get_value`, `get_ref`, `get_cref` and `extract`, for any requested type,
fails with EmptyAccess (and `extract` leaves the box empty). -/
theorem C6_extract_returns_and_empties (T : τ) (v : V T) :
    ((Property.ofValue T v : Property τ V).extract T).1.Returns v ∧
    ((Property.ofValue T v : Property τ V).extract T).2.has_value = false ∧
    ∀ U : τ,
      (((Property.ofValue T v : Property τ V).extract T).2.get_value U).EmptyAccess ∧
      (((Property.ofValue T v : Property τ V).extract T).2.get_ref U).EmptyAccess ∧
      (((Property.ofValue T v : Property τ V).extract T).2.get_cref U).EmptyAccess ∧
      ((((Property.ofValue T v : Property τ V).extract T).2.extract U).1).EmptyAccess ∧
      ((((Property.ofValue T v : Property τ V).extract T).2.extract U).2).has_value = false := by
  have h : (Property.ofValue T v : Property τ V).extract T = (⟨.ok v, []⟩, ⟨none⟩) := by
    simp [Property.extract, Property.ofValue, Property.has_value, any_cast_same, Property.reset]
  rw [h]
  refine ⟨⟨rfl, rfl⟩, rfl, fun U => ⟨⟨rfl, rfl⟩, ⟨rfl, rfl⟩, ⟨rfl, rfl⟩, ⟨rfl, rfl⟩, rfl⟩⟩

end PropertyClaims

section PropertyTypeClaims

variable {τ : Type} {V : τ → Type}

/-- C9 (amended): `type()` never fails; on every empty box (default-constructed, reset, or
emptied by `extract`) it returns `typeid(void)`. -/
theorem C9_type_of_empty_is_void (p : Property τ V) (h : p.has_value = false) :
    p.type = TypeInfo.void := by
  cases hp : p._value with
  | none => simp [Property.type, hp]
  | some s => simp [Property.has_value, hp] at h

/-- Witness of C9 (amended), at the box emptied by `extract<int>` from a box holding 3. -/
theorem C9_type_of_empty_is_void_witness :
    ((@Property.ofValue SampleType SampleType.Val SampleType.int (3 : Int)).extract
        SampleType.int).2.has_value = false ∧
    ((@Property.ofValue SampleType SampleType.Val SampleType.int (3 : Int)).extract
        SampleType.int).2.type = TypeInfo.void :=
  ⟨rfl, C9_type_of_empty_is_void _ rfl⟩

/-- C9 as stated fails: on the default-constructed box, `type()` returns `typeid(void)` to its
caller, which is not a failure with EmptyAccess. -/
theorem C9_type_on_empty_returns :
    (Property.empty : Property SampleType SampleType.Val).type = TypeInfo.void ∧
    ¬ (Outcome.EmptyAccess (⟨.ok (Property.empty : Property SampleType SampleType.Val).type, []⟩ :
        Outcome SampleType (TypeInfo SampleType))) :=
  ⟨rfl, fun h => by cases h.1⟩

end PropertyTypeClaims

/-! ## Theorems: decimal numerals -/

/-- Reading a decimal numeral back, most significant digit first. -/
theorem digitChar_toNat (d : Nat) (h : d < 10) : (Nat.digitChar d).toNat - 48 = d := by
  interval_cases d <;> rfl

theorem toDigitsCore_decode (fuel : Nat) : ∀ (n : Nat) (ds : List Char), n < fuel →
    (Nat.toDigitsCore 10 fuel n ds).foldl (fun a c => 10 * a + (c.toNat - 48)) 0 =
      ds.foldl (fun a c => 10 * a + (c.toNat - 48)) n := by
  induction fuel with
  | zero => intro n ds h; omega
  | succ fuel ih =>
    intro n ds h
    have hd : (Nat.digitChar (n % 10)).toNat - 48 = n % 10 :=
      digitChar_toNat _ (Nat.mod_lt _ (by norm_num))
    by_cases h0 : n / 10 = 0
    · have hn : n % 10 = n := Nat.mod_eq_of_lt (by omega)
      rw [hn] at hd
      simp [Nat.toDigitsCore, h0, hd, hn]
    · have hlt : n / 10 < fuel := by omega
      simp only [Nat.toDigitsCore, h0, if_false]
      rw [ih (n / 10) _ hlt]
      simp only [List.foldl_cons, hd]
      congr 1
      omega

theorem to_string_injective : Function.Injective to_string := by
  intro m n h
  have hd : Nat.toDigits 10 m = Nat.toDigits 10 n := congrArg String.data h
  have hm := toDigitsCore_decode (m + 1) m [] (Nat.lt_succ_self m)
  have hn := toDigitsCore_decode (n + 1) n [] (Nat.lt_succ_self n)
  simp only [List.foldl_nil] at hm hn
  have : (Nat.toDigits 10 m).foldl (fun a c => 10 * a + (c.toNat - 48)) 0 =
      (Nat.toDigits 10 n).foldl (fun a c => 10 * a + (c.toNat - 48)) 0 := by rw [hd]
  unfold Nat.toDigits at this
  omega

/-! ## Theorems: unordered maps -/

section UnorderedMapTheorems

variable {κ β : Type} [DecidableEq κ]

theorem unordered_map.find_assign_same (m : unordered_map κ β) (k : κ) (v : β) :
    unordered_map.find (unordered_map.assign m k v) k = some v := by
  induction m with
  | nil => simp [unordered_map.assign, unordered_map.find]
  | cons e rest ih =>
    obtain ⟨k', v'⟩ := e
    by_cases h : k' = k
    · simp [unordered_map.assign, unordered_map.find, h]
    · simp [unordered_map.assign, unordered_map.find, h, ih]

theorem unordered_map.find_assign_other (m : unordered_map κ β) (k k' : κ) (v : β)
    (h : k ≠ k') :
    unordered_map.find (unordered_map.assign m k v) k' = unordered_map.find m k' := by
  induction m with
  | nil => simp [unordered_map.assign, unordered_map.find, h]
  | cons e rest ih =>
    obtain ⟨k₀, v₀⟩ := e
    by_cases h0 : k₀ = k
    · subst h0
      simp [unordered_map.assign, unordered_map.find, h]
    · by_cases h1 : k₀ = k'
      · subst h1
        simp [unordered_map.assign, unordered_map.find, h0]
      · simp [unordered_map.assign, unordered_map.find, h0, h1, ih]

theorem unordered_map.assign_of_find (m : unordered_map κ β) (k : κ) (v : β)
    (h : unordered_map.find m k = some v) : unordered_map.assign m k v = m := by
  induction m with
  | nil => simp [unordered_map.find] at h
  | cons e rest ih =>
    obtain ⟨k₀, v₀⟩ := e
    by_cases h0 : k₀ = k
    · subst h0
      simp [unordered_map.find] at h
      simp [unordered_map.assign, h]
    · simp [unordered_map.find, h0] at h
      simp [unordered_map.assign, h0, ih h]

theorem unordered_map.mem_of_find (m : unordered_map κ β) (k : κ) (v : β)
    (h : unordered_map.find m k = some v) : (k, v) ∈ m := by
  induction m with
  | nil => simp [unordered_map.find] at h
  | cons e rest ih =>
    obtain ⟨k₀, v₀⟩ := e
    by_cases h0 : k₀ = k
    · subst h0
      simp [unordered_map.find] at h
      simp [h]
    · simp [unordered_map.find, h0] at h
      exact List.mem_cons_of_mem _ (ih h)

theorem unordered_map.find_none_iff (m : unordered_map κ β) (k : κ) :
    unordered_map.find m k = none ↔ ∀ e ∈ m, e.1 ≠ k := by
  induction m with
  | nil => simp [unordered_map.find]
  | cons e rest ih =>
    obtain ⟨k₀, v₀⟩ := e
    by_cases h0 : k₀ = k
    · simp [unordered_map.find, h0]
    · simp [unordered_map.find, h0, ih]

theorem unordered_map.erase_of_find_none (m : unordered_map κ β) (k : κ)
    (h : unordered_map.find m k = none) : unordered_map.erase m k = m := by
  rw [unordered_map.find_none_iff] at h
  unfold unordered_map.erase
  rw [List.filter_eq_self]
  intro e he
  simpa using h e he

theorem unordered_map.find_erase_same (m : unordered_map κ β) (k : κ) :
    unordered_map.find (unordered_map.erase m k) k = none := by
  rw [unordered_map.find_none_iff]
  intro e he
  unfold unordered_map.erase at he
  simpa using (List.mem_filter.1 he).2

end UnorderedMapTheorems

/-! ## Theorems: runs of the bus -/

section RunTheorems

variable {τ : Type} {V : τ → Type}

theorem EventBus.run_append (b : EventBus τ V) (xs ys : List (Call τ V)) :
    b.run (xs ++ ys) = (b.run xs).run ys := by
  induction xs generalizing b with
  | nil => rfl
  | cons c cs ih => simp [EventBus.run, ih]

theorem EventBus.unlisten_latestData (b : EventBus τ V) (topic id : String) :
    (b.unlisten topic id)._latestData = b._latestData := by
  unfold EventBus.unlisten
  split <;> rfl

theorem EventBus.unlisten_idCounter (b : EventBus τ V) (topic id : String) :
    (b.unlisten topic id)._idCounter = b._idCounter := by
  unfold EventBus.unlisten
  split <;> rfl

theorem EventBus.unlisten_heap_next (b : EventBus τ V) (topic id : String) :
    (b.unlisten topic id).heap_next = b.heap_next := by
  unfold EventBus.unlisten
  split <;> rfl

theorem EventBus.notify_fst (b : EventBus τ V) (topic : String) (props : PropertyMap τ V) :
    (b.notify topic props).1 =
      { b with _latestData := unordered_map.assign b._latestData topic props } := by
  unfold EventBus.notify
  simp only
  split <;> rfl

theorem EventBus.call_latestData (b : EventBus τ V) (c : Call τ V) (topic : String)
    (h : c.publishes topic = false) :
    unordered_map.find (b.call c).1._latestData topic = unordered_map.find b._latestData topic := by
  cases c with
  | listen t f => rfl
  | unlisten t i => simp [EventBus.call, EventBus.unlisten_latestData]
  | notify t p =>
    have ht : t ≠ topic := by simpa [Call.publishes] using h
    simp [EventBus.call, EventBus.notify_fst, unordered_map.find_assign_other _ _ _ _ ht]
  | getLatest t d => rfl

theorem EventBus.run_latestData (calls : List (Call τ V)) (topic : String) :
    ∀ b : EventBus τ V, (∀ c ∈ calls, c.publishes topic = false) →
      unordered_map.find (b.run calls)._latestData topic =
        unordered_map.find b._latestData topic := by
  induction calls with
  | nil => intro b _; rfl
  | cons c cs ih =>
    intro b h
    simp only [EventBus.run]
    rw [ih _ (fun x hx => h x (List.mem_cons_of_mem _ hx)),
      EventBus.call_latestData b c topic (h c (List.mem_cons_self _ _))]

/-- C3: after any sequence of calls on a fresh bus, `getLatest(T, data)` returns false (and
leaves `data` alone) when the sequence has no `notify(T, _)`, and otherwise returns true with
`data` equal to the whole bundle of the last `notify(T, P)` of the sequence; the `listen` and
`unlisten` calls of the sequence play no part. -/
theorem C3_getLatest_is_last_published (calls : List (Call τ V)) (topic : String)
    (data : PropertyMap τ V) :
    ((∀ c ∈ calls, c.publishes topic = false) →
      ((EventBus.fresh : EventBus τ V).run calls).getLatest topic data = (false, data)) ∧
    (∀ (before after : List (Call τ V)) (P : PropertyMap τ V),
      calls = before ++ Call.notify topic P :: after →
      (∀ c ∈ after, c.publishes topic = false) →
      ((EventBus.fresh : EventBus τ V).run calls).getLatest topic data = (true, P)) := by
  constructor
  · intro h
    have := EventBus.run_latestData calls topic (EventBus.fresh : EventBus τ V) h
    unfold EventBus.getLatest
    rw [this]
    rfl
  · rintro before after P rfl h
    have := EventBus.run_latestData after topic
      (((EventBus.fresh : EventBus τ V).run before).call (Call.notify topic P)).1 h
    rw [EventBus.run_append]
    simp only [EventBus.run, EventBus.getLatest, this]
    simp [EventBus.call, EventBus.notify_fst, unordered_map.find_assign_same]

end RunTheorems

/-! ## Theorems: subscription ids -/

section IdTheorems

variable {τ : Type} {V : τ → Type}

theorem two_pow_size_bits : 2 ^ SIZE_BITS = 18446744073709551616 := by
  norm_num [SIZE_BITS]

theorem EventBus.listen_snd (b : EventBus τ V) (topic : String) (func : CallBack τ V) :
    (b.listen topic func).2 = to_string b._idCounter := rfl

theorem EventBus.listen_idCounter (b : EventBus τ V) (topic : String) (func : CallBack τ V) :
    (b.listen topic func).1._idCounter = (b._idCounter + 1) % 2 ^ SIZE_BITS := rfl

theorem EventBus.listen_heap_next (b : EventBus τ V) (topic : String) (func : CallBack τ V) :
    (b.listen topic func).1.heap_next = b.heap_next + 1 := rfl

theorem EventBus.listen_latestData (b : EventBus τ V) (topic : String) (func : CallBack τ V) :
    (b.listen topic func).1._latestData = b._latestData := rfl

theorem EventBus.notify_idCounter (b : EventBus τ V) (topic : String)
    (props : PropertyMap τ V) : (b.notify topic props).1._idCounter = b._idCounter := by
  rw [EventBus.notify_fst]

theorem EventBus.notify_topics (b : EventBus τ V) (topic : String)
    (props : PropertyMap τ V) : (b.notify topic props).1._topics = b._topics := by
  rw [EventBus.notify_fst]

theorem EventBus.call_idCounter (b : EventBus τ V) (c : Call τ V) :
    (b.call c).1._idCounter =
      if c.isListen then (b._idCounter + 1) % 2 ^ SIZE_BITS else b._idCounter := by
  cases c with
  | listen t f => rfl
  | unlisten t i => simp [EventBus.call, EventBus.unlisten_idCounter, Call.isListen]
  | notify t p => simp [EventBus.call, EventBus.notify_fst, Call.isListen]
  | getLatest t d => rfl

/-- The ids of a run are the numerals of the successive values of the counter. -/
theorem listenIds_returns (calls : List (Call τ V)) :
    ∀ b : EventBus τ V, b._idCounter < 2 ^ SIZE_BITS →
      listenIds (b.returns calls) =
        (List.range (nListens calls)).map
          (fun j => to_string ((b._idCounter + j) % 2 ^ SIZE_BITS)) := by
  induction calls with
  | nil => intro b _; rfl
  | cons c cs ih =>
    intro b hb
    have hlt : (b.call c).1._idCounter < 2 ^ SIZE_BITS := by
      rw [EventBus.call_idCounter]
      split
      · exact Nat.mod_lt _ (by norm_num [SIZE_BITS])
      · exact hb
    have ih1 := ih (b.call c).1 hlt
    simp only [EventBus.returns]
    cases c with
    | listen t f =>
      have hn : nListens (Call.listen t f :: cs) = nListens cs + 1 := by
        simp [nListens, Call.isListen]
      rw [hn, List.range_succ_eq_map, List.map_cons, List.map_map]
      simp only [EventBus.call, listenIds, EventBus.listen_snd]
      simp only [EventBus.call] at ih1
      rw [ih1, EventBus.listen_idCounter]
      rw [two_pow_size_bits] at hb ⊢
      congr 1
      · congr 1
        omega
      · apply List.map_congr_left
        intro j _
        simp only [Function.comp]
        congr 1
        omega
    | unlisten t i =>
      have hn : nListens (Call.unlisten t i :: cs) = nListens cs := by
        simp [nListens, Call.isListen]
      rw [hn]
      simp only [EventBus.call, listenIds]
      simp only [EventBus.call, EventBus.unlisten_idCounter] at ih1
      exact ih1
    | notify t p =>
      have hn : nListens (Call.notify t p :: cs) = nListens cs := by
        simp [nListens, Call.isListen]
      rw [hn]
      simp only [EventBus.call, listenIds]
      simp only [EventBus.call, EventBus.notify_idCounter] at ih1
      exact ih1
    | getLatest t d =>
      have hn : nListens (Call.getLatest t d :: cs) = nListens cs := by
        simp [nListens, Call.isListen]
      rw [hn]
      simp only [EventBus.call, listenIds]
      simp only [EventBus.call] at ih1
      exact ih1

theorem nListens_replicate_listen (n : Nat) (topic : String) (func : CallBack τ V) :
    nListens (List.replicate n (Call.listen topic func)) = n := by
  induction n with
  | zero => rfl
  | succ n ih =>
    rw [List.replicate_succ]
    simp only [nListens, List.countP_cons, Call.isListen] at ih ⊢
    simp [ih]

/-- C4 (amended): in a sequence of calls on a fresh bus with at most 2^64 `listen` calls,
the ids returned by the `listen` calls are pairwise different, whatever the topics and
whatever `unlisten` calls lie in between. -/
theorem C4_ids_distinct_below_wraparound (calls : List (Call τ V))
    (h : nListens calls ≤ 2 ^ SIZE_BITS) :
    (listenIds ((EventBus.fresh : EventBus τ V).returns calls)).Nodup := by
  rw [listenIds_returns calls _ (by norm_num [EventBus.fresh, SIZE_BITS])]
  apply List.Nodup.map_on _ (List.nodup_range _)
  intro x hx y hy hxy
  have hx1 := List.mem_range.1 hx
  have hy1 := List.mem_range.1 hy
  have := to_string_injective hxy
  simp only [EventBus.fresh, Nat.zero_add] at this
  rw [two_pow_size_bits] at this h
  omega

/-- C4 as stated fails: 2^64 + 1 `listen` calls on a fresh bus do not return pairwise
different ids (the counter is a `size_t`; the first and the last call both return "0"). -/
theorem C4_ids_repeat_after_wraparound :
    ¬ (listenIds ((EventBus.fresh : EventBus SampleType SampleType.Val).returns
        (List.replicate (2 ^ SIZE_BITS + 1) (Call.listen "DATA-UPDATE" (fun _ => .ok ()))))).Nodup := by
  rw [listenIds_returns _ _ (by norm_num [EventBus.fresh, SIZE_BITS]), nListens_replicate_listen]
  intro hnd
  have h0 : (0 : Nat) ∈ List.range (2 ^ SIZE_BITS + 1) := List.mem_range.2 (Nat.succ_pos _)
  have h1 : 2 ^ SIZE_BITS ∈ List.range (2 ^ SIZE_BITS + 1) :=
    List.mem_range.2 (Nat.lt_succ_self _)
  have := List.inj_on_of_nodup_map hnd h0 h1 (by simp [EventBus.fresh])
  rw [two_pow_size_bits] at this
  omega

end IdTheorems

/-! ## Theorems: use counts -/

section UseCountTheorems

variable {κ β : Type} [DecidableEq κ]

theorem unordered_map.mem_assign_self (m : unordered_map κ β) (k : κ) (v : β) :
    (k, v) ∈ unordered_map.assign m k v :=
  unordered_map.mem_of_find _ _ _ (unordered_map.find_assign_same m k v)

theorem unordered_map.mem_assign (m : unordered_map κ β) (k : κ) (v : β) (e : κ × β)
    (h : e ∈ unordered_map.assign m k v) : e = (k, v) ∨ e ∈ m := by
  induction m with
  | nil => simpa [unordered_map.assign] using h
  | cons e₀ rest ih =>
    obtain ⟨k₀, v₀⟩ := e₀
    by_cases h0 : k₀ = k
    · simp [unordered_map.assign, h0] at h
      rcases h with h | h
      · exact Or.inl h
      · exact Or.inr (List.mem_cons_of_mem _ h)
    · simp [unordered_map.assign, h0] at h
      rcases h with h | h
      · exact Or.inr (by simp [h])
      · rcases ih h with h | h
        · exact Or.inl h
        · exact Or.inr (List.mem_cons_of_mem _ h)

theorem unordered_map.mem_erase (m : unordered_map κ β) (k : κ) (e : κ × β)
    (h : e ∈ unordered_map.erase m k) : e ∈ m ∧ e.1 ≠ k := by
  unfold unordered_map.erase at h
  simpa using List.mem_filter.1 h

theorem unordered_map.find_erase_other (m : unordered_map κ β) (k k' : κ) (h : k ≠ k') :
    unordered_map.find (unordered_map.erase m k) k' = unordered_map.find m k' := by
  induction m with
  | nil => rfl
  | cons e rest ih =>
    obtain ⟨k₀, v₀⟩ := e
    unfold unordered_map.erase at ih ⊢
    by_cases h0 : k₀ = k
    · subst h0
      simp only [List.filter_cons, ne_eq, not_true_eq_false, decide_False, Bool.false_eq_true,
        if_false, unordered_map.find, h]
      exact ih
    · by_cases h1 : k₀ = k'
      · subst h1
        simp [List.filter_cons, h0, unordered_map.find]
      · simp only [List.filter_cons, ne_eq, h0, not_false_eq_true, decide_True, if_true,
          unordered_map.find, h1, if_false]
        exact ih

/-- Counting the values with a property `q`, before and after `m[k] = v`. -/
theorem unordered_map.countP_assign (q : β → Bool) (m : unordered_map κ β) (k : κ) (v : β) :
    (unordered_map.assign m k v).countP (fun e => q e.2) +
        (if (unordered_map.find m k).any q then 1 else 0) =
      m.countP (fun e => q e.2) + (if q v then 1 else 0) := by
  induction m with
  | nil => simp [unordered_map.assign, unordered_map.find, List.countP_cons]
  | cons e rest ih =>
    obtain ⟨k₀, v₀⟩ := e
    by_cases h0 : k₀ = k
    · simp only [unordered_map.assign, h0, if_true, unordered_map.find, List.countP_cons,
        Option.any_some]
      omega
    · simp only [unordered_map.assign, h0, if_false, unordered_map.find, List.countP_cons]
      omega

theorem unordered_map.countP_erase_le (p : κ × β → Bool) (m : unordered_map κ β) (k : κ) :
    (unordered_map.erase m k).countP p ≤ m.countP p := by
  unfold unordered_map.erase
  exact List.Sublist.countP_le _ (List.filter_sublist _)

end UseCountTheorems

section RegistryTheorems

variable {τ : Type} {V : τ → Type}

theorem use_count_cons (t : String × TopicData τ V) (topics : unordered_map String (TopicData τ V))
    (a : Nat) : use_count (t :: topics) a = t.2.owns a + use_count topics a := by
  simp [use_count, TopicData.owns]

/-- The use count of a control block before and after `_topics[topic] = td`. -/
theorem use_count_assign (topics : unordered_map String (TopicData τ V)) (topic : String)
    (td : TopicData τ V) (a : Nat) :
    use_count (unordered_map.assign topics topic td) a +
        ((unordered_map.find topics topic).getD { callbacks := [], callbackMap := [] }).owns a =
      use_count topics a + td.owns a := by
  induction topics with
  | nil => simp [unordered_map.assign, unordered_map.find, use_count, TopicData.owns]
  | cons t rest ih =>
    obtain ⟨k₀, v₀⟩ := t
    by_cases h0 : k₀ = topic
    · simp only [unordered_map.assign, h0, if_true, unordered_map.find, use_count_cons,
        Option.getD_some]
      omega
    · simp only [unordered_map.assign, h0, if_false, unordered_map.find, use_count_cons]
      omega

theorem owns_le_use_count (topics : unordered_map String (TopicData τ V))
    (t : String × TopicData τ V) (ht : t ∈ topics) (a : Nat) :
    t.2.owns a ≤ use_count topics a := by
  induction topics with
  | nil => simp at ht
  | cons t₀ rest ih =>
    rw [use_count_cons]
    rcases List.mem_cons.1 ht with h | h
    · subst h
      omega
    · have := ih h
      omega

theorem owns_pos (td : TopicData τ V) (e : String × CallBackSPtr τ V)
    (he : e ∈ td.callbackMap) : 0 < td.owns e.2.addr := by
  unfold TopicData.owns
  exact List.countP_pos_iff.2 ⟨e, he, by simp⟩

theorem use_count_pos (topics : unordered_map String (TopicData τ V))
    (t : String × TopicData τ V) (ht : t ∈ topics) (e : String × CallBackSPtr τ V)
    (he : e ∈ t.2.callbackMap) : 0 < use_count topics e.2.addr :=
  Nat.lt_of_lt_of_le (owns_pos t.2 e he) (owns_le_use_count topics t ht _)

theorem EventBus.listen_topics (b : EventBus τ V) (topic : String) (func : CallBack τ V) :
    (b.listen topic func).1._topics =
      unordered_map.assign b._topics topic
        { callbacks :=
            ((unordered_map.find b._topics topic).getD
              { callbacks := [], callbackMap := [] }).callbacks ++ [⟨b.heap_next, func⟩],
          callbackMap :=
            unordered_map.assign
              ((unordered_map.find b._topics topic).getD
                { callbacks := [], callbackMap := [] }).callbackMap
              (to_string b._idCounter) ⟨b.heap_next, func⟩ } := rfl

theorem unordered_map.assign_assign {κ β : Type} [DecidableEq κ] (m : unordered_map κ β)
    (k : κ) (v w : β) :
    unordered_map.assign (unordered_map.assign m k v) k w = unordered_map.assign m k w := by
  induction m with
  | nil => simp [unordered_map.assign]
  | cons e rest ih =>
    obtain ⟨k₀, v₀⟩ := e
    by_cases h0 : k₀ = k
    · simp [unordered_map.assign, h0]
    · simp [unordered_map.assign, h0, ih]

theorem EventBus.unlisten_topics_none (b : EventBus τ V) (topic id : String)
    (h : unordered_map.find b._topics topic = none) : b.unlisten topic id = b := by
  unfold EventBus.unlisten
  rw [h]

theorem EventBus.unlisten_topics_some (b : EventBus τ V) (topic id : String)
    (td : TopicData τ V) (h : unordered_map.find b._topics topic = some td) :
    (b.unlisten topic id)._topics =
      unordered_map.assign b._topics topic
        { callbacks := td.callbacks.filter (fun wp =>
            !(wp.expired (unordered_map.assign b._topics topic
              { td with callbackMap := unordered_map.erase td.callbackMap id }))),
          callbackMap := unordered_map.erase td.callbackMap id } := by
  unfold EventBus.unlisten
  rw [h]
  simp only [unordered_map.assign_assign]

end RegistryTheorems

/-! ## Theorems: the invariant holds in every reachable state -/

section WellFormedTheorems

variable {τ : Type} {V : τ → Type}

theorem filter_filter_swap {α : Type} (p q : α → Bool) (l : List α) :
    (l.filter q).filter p = (l.filter p).filter q := by
  simp only [List.filter_filter]
  congr 1
  funext x
  exact Bool.and_comm _ _

theorem EventBus.WellFormed.fresh : (EventBus.fresh : EventBus τ V).WellFormed where
  counter_lt := by norm_num [EventBus.fresh, SIZE_BITS]
  weak_lt := by intro t ht; simp [EventBus.fresh] at ht
  shared_lt := by intro t ht; simp [EventBus.fresh] at ht
  listed_once := by intro t ht; simp [EventBus.fresh] at ht

/-- The invariant gives, for the `TopicData` that `_topics[topic]` refers to (the stored
one, or the default-constructed one), what it gives for every stored `TopicData`. -/
theorem EventBus.WellFormed.wf_getD {b : EventBus τ V} (hb : b.WellFormed) (topic : String) :
    (∀ wp ∈ ((unordered_map.find b._topics topic).getD
        { callbacks := [], callbackMap := [] }).callbacks, wp.addr < b.heap_next) ∧
    (∀ e ∈ ((unordered_map.find b._topics topic).getD
        { callbacks := [], callbackMap := [] }).callbackMap, e.2.addr < b.heap_next) ∧
    (∀ e ∈ ((unordered_map.find b._topics topic).getD
        { callbacks := [], callbackMap := [] }).callbackMap,
      ((unordered_map.find b._topics topic).getD
        { callbacks := [], callbackMap := [] }).callbacks.filter
          (fun wp => wp.addr = e.2.addr) = [e.2.weak]) := by
  cases h : unordered_map.find b._topics topic with
  | none => simp
  | some td =>
    have hm := unordered_map.mem_of_find _ _ _ h
    exact ⟨hb.weak_lt _ hm, hb.shared_lt _ hm, hb.listed_once _ hm⟩

theorem EventBus.WellFormed.wf_listen {b : EventBus τ V} (hb : b.WellFormed) (topic : String)
    (func : CallBack τ V) : (b.listen topic func).1.WellFormed := by
  obtain ⟨hw, hs, hl⟩ := hb.wf_getD topic
  refine ⟨?_, ?_, ?_, ?_⟩
  · rw [EventBus.listen_idCounter]
    exact Nat.mod_lt _ (by norm_num [SIZE_BITS])
  · intro t ht wp hwp
    rw [EventBus.listen_heap_next]
    rw [EventBus.listen_topics] at ht
    rcases unordered_map.mem_assign _ _ _ _ ht with h | h
    · subst h
      rcases List.mem_append.1 hwp with h1 | h1
      · exact Nat.lt_succ_of_lt (hw wp h1)
      · simp at h1
        subst h1
        exact Nat.lt_succ_self _
    · exact Nat.lt_succ_of_lt (hb.weak_lt t h wp hwp)
  · intro t ht e he
    rw [EventBus.listen_heap_next]
    rw [EventBus.listen_topics] at ht
    rcases unordered_map.mem_assign _ _ _ _ ht with h | h
    · subst h
      rcases unordered_map.mem_assign _ _ _ _ he with h1 | h1
      · subst h1
        exact Nat.lt_succ_self _
      · exact Nat.lt_succ_of_lt (hs e h1)
    · exact Nat.lt_succ_of_lt (hb.shared_lt t h e he)
  · intro t ht e he
    rw [EventBus.listen_topics] at ht
    rcases unordered_map.mem_assign _ _ _ _ ht with h | h
    · subst h
      simp only [List.filter_append]
      rcases unordered_map.mem_assign _ _ _ _ he with h1 | h1
      · subst h1
        have : List.filter (fun wp : CallBackWPtr τ V => decide (wp.addr = b.heap_next))
            ((unordered_map.find b._topics topic).getD
              { callbacks := [], callbackMap := [] }).callbacks = [] := by
          rw [List.filter_eq_nil_iff]
          intro wp hwp
          have := hw wp hwp
          simp
          omega
        simp [this, CallBackSPtr.weak]
      · have hlt := hs e h1
        have hne : ¬ b.heap_next = e.2.addr := by omega
        simp [hl e h1, hne]
    · exact hb.listed_once t h e he

theorem EventBus.WellFormed.wf_unlisten {b : EventBus τ V} (hb : b.WellFormed)
    (topic id : String) : (b.unlisten topic id).WellFormed := by
  cases hf : unordered_map.find b._topics topic with
  | none => rw [EventBus.unlisten_topics_none b topic id hf]; exact hb
  | some td =>
    have hm := unordered_map.mem_of_find _ _ _ hf
    refine ⟨?_, ?_, ?_, ?_⟩
    · rw [EventBus.unlisten_idCounter]; exact hb.counter_lt
    · intro t ht wp hwp
      rw [EventBus.unlisten_heap_next]
      rw [EventBus.unlisten_topics_some b topic id td hf] at ht
      rcases unordered_map.mem_assign _ _ _ _ ht with h | h
      · subst h
        exact hb.weak_lt _ hm wp (List.mem_filter.1 hwp).1
      · exact hb.weak_lt t h wp hwp
    · intro t ht e he
      rw [EventBus.unlisten_heap_next]
      rw [EventBus.unlisten_topics_some b topic id td hf] at ht
      rcases unordered_map.mem_assign _ _ _ _ ht with h | h
      · subst h
        exact hb.shared_lt _ hm e (unordered_map.mem_erase _ _ _ he).1
      · exact hb.shared_lt t h e he
    · intro t ht e he
      rw [EventBus.unlisten_topics_some b topic id td hf] at ht
      rcases unordered_map.mem_assign _ _ _ _ ht with h | h
      · subst h
        have he1 := (unordered_map.mem_erase _ _ _ he).1
        simp only
        rw [filter_filter_swap, hb.listed_once _ hm e he1]
        have hpos := use_count_pos
          (unordered_map.assign b._topics topic
            { td with callbackMap := unordered_map.erase td.callbackMap id })
          (topic, { td with callbackMap := unordered_map.erase td.callbackMap id })
          (unordered_map.mem_assign_self _ _ _) e he
        have hne : use_count (unordered_map.assign b._topics topic
            { td with callbackMap := unordered_map.erase td.callbackMap id }) e.2.addr ≠ 0 :=
          Nat.pos_iff_ne_zero.1 hpos
        simp [CallBackWPtr.expired, CallBackSPtr.weak, hne]
      · exact hb.listed_once t h e he

theorem EventBus.WellFormed.wf_notify {b : EventBus τ V} (hb : b.WellFormed) (topic : String)
    (props : PropertyMap τ V) : (b.notify topic props).1.WellFormed := by
  rw [EventBus.notify_fst]
  exact ⟨hb.counter_lt, hb.weak_lt, hb.shared_lt, hb.listed_once⟩

theorem EventBus.WellFormed.wf_call {b : EventBus τ V} (hb : b.WellFormed) (c : Call τ V) :
    (b.call c).1.WellFormed := by
  cases c with
  | listen t f => exact hb.wf_listen t f
  | unlisten t i => exact hb.wf_unlisten t i
  | notify t p => exact hb.wf_notify t p
  | getLatest t d => exact hb

theorem EventBus.WellFormed.wf_run {b : EventBus τ V} (hb : b.WellFormed)
    (calls : List (Call τ V)) : (b.run calls).WellFormed := by
  induction calls generalizing b with
  | nil => exact hb
  | cons c cs ih => exact ih (hb.wf_call c)

theorem EventBus.Reachable.wellFormed {b : EventBus τ V} (hb : b.Reachable) : b.WellFormed := by
  obtain ⟨calls, rfl⟩ := hb
  exact EventBus.WellFormed.fresh.wf_run calls

end WellFormedTheorems

/-! ## Theorems: what `notify` dispatches -/

section DispatchTheorems

variable {τ : Type} {V : τ → Type}

theorem EventBus.notify_snd (b : EventBus τ V) (topic : String) (props : PropertyMap τ V) :
    (b.notify topic props).2 =
      match unordered_map.find b._topics topic with
      | none => []
      | some td => td.callbacks.filterMap (fun cb =>
          match cb.lock b._topics with
          | some callback => some ⟨callback, props, callback.fn props⟩
          | none => none) := by
  unfold EventBus.notify
  simp only
  split <;> rfl

theorem filter_filterMap_of_agree {α γ : Type} (g : α → Option γ) (p : γ → Bool) (q : α → Bool)
    (h : ∀ x y, g x = some y → p y = q x) (l : List α) :
    (l.filterMap g).filter p = (l.filter q).filterMap g := by
  induction l with
  | nil => rfl
  | cons x xs ih =>
    cases hg : g x with
    | none =>
      by_cases hq : q x = true
      · simp [List.filterMap_cons, List.filter_cons, hg, hq, ih]
      · simp [List.filterMap_cons, List.filter_cons, hg, hq, ih]
    | some y =>
      have := h x y hg
      by_cases hq : q x = true
      · have hp : p y = true := by rw [this]; exact hq
        simp [List.filterMap_cons, List.filter_cons, hg, hq, hp, ih]
      · have hp : ¬ p y = true := by rw [this]; exact hq
        simp [List.filterMap_cons, List.filter_cons, hg, hq, hp, ih]

theorem CallBackWPtr.lock_addr (wp : CallBackWPtr τ V)
    (topics : unordered_map String (TopicData τ V)) (sp : CallBackSPtr τ V)
    (h : wp.lock topics = some sp) : sp.addr = wp.addr ∧ use_count topics wp.addr ≠ 0 := by
  unfold CallBackWPtr.lock CallBackWPtr.expired at h
  by_cases h0 : use_count topics wp.addr = 0
  · simp [h0] at h
  · simp [h0] at h
    subst h
    exact ⟨rfl, h0⟩

/-- A callback object that a map of the registry owns is dispatched exactly once by a
`notify` on its topic, on the bundle published. -/
theorem EventBus.WellFormed.dispatch_registered {b : EventBus τ V} (hb : b.WellFormed)
    (topic id : String) (sp : CallBackSPtr τ V) (hr : b.Registered topic id sp)
    (props : PropertyMap τ V) :
    dispatchesTo (b.notify topic props).2 sp.addr = [⟨sp, props, sp.fn props⟩] := by
  obtain ⟨td, htd, hid⟩ := hr
  have hm := unordered_map.mem_of_find _ _ _ htd
  have he := unordered_map.mem_of_find _ _ _ hid
  rw [EventBus.notify_snd, htd]
  simp only [dispatchesTo]
  rw [filter_filterMap_of_agree _ _ (fun wp => decide (wp.addr = sp.addr))]
  · rw [hb.listed_once _ hm _ he]
    have hpos := use_count_pos b._topics _ hm _ he
    have hne : use_count b._topics sp.addr ≠ 0 := Nat.pos_iff_ne_zero.1 hpos
    simp [CallBackWPtr.lock, CallBackWPtr.expired, CallBackSPtr.weak, hne]
  · intro wp d hd
    cases hl : wp.lock b._topics with
    | none => simp [hl] at hd
    | some s =>
      simp only [hl, Option.some.injEq] at hd
      subst hd
      simp [(CallBackWPtr.lock_addr wp _ s hl).1]

theorem EventBus.registered_of_assign (b : EventBus τ V)
    (m : unordered_map String (TopicData τ V)) (topic id : String) (td : TopicData τ V)
    (sp : CallBackSPtr τ V) (hm : b._topics = unordered_map.assign m topic td)
    (hid : unordered_map.find td.callbackMap id = some sp) : b.Registered topic id sp :=
  ⟨td, by rw [hm]; exact unordered_map.find_assign_same _ _ _, hid⟩

theorem EventBus.registered_listen_new (b : EventBus τ V) (topic : String)
    (func : CallBack τ V) :
    (b.listen topic func).1.Registered topic (b.listen topic func).2 ⟨b.heap_next, func⟩ :=
  EventBus.registered_of_assign _ _ _ _ _ _ (EventBus.listen_topics b topic func)
    (unordered_map.find_assign_same _ _ _)

theorem EventBus.registered_listen_other (b : EventBus τ V) (topic id : String)
    (sp : CallBackSPtr τ V) (hr : b.Registered topic id sp) (topic1 : String)
    (func : CallBack τ V) (h : topic1 ≠ topic ∨ to_string b._idCounter ≠ id) :
    (b.listen topic1 func).1.Registered topic id sp := by
  obtain ⟨td, htd, hid⟩ := hr
  by_cases ht : topic1 = topic
  · subst ht
    have hne : to_string b._idCounter ≠ id := by
      rcases h with h | h
      · exact absurd rfl h
      · exact h
    refine EventBus.registered_of_assign _ _ _ _ _ _ (EventBus.listen_topics b topic1 func) ?_
    simp only [htd, Option.getD_some]
    rw [unordered_map.find_assign_other _ _ _ _ hne]
    exact hid
  · refine ⟨td, ?_, hid⟩
    rw [EventBus.listen_topics, unordered_map.find_assign_other _ _ _ _ ht]
    exact htd

theorem EventBus.registered_unlisten_other (b : EventBus τ V) (topic id : String)
    (sp : CallBackSPtr τ V) (hr : b.Registered topic id sp) (topic1 id1 : String)
    (h : topic1 ≠ topic ∨ id1 ≠ id) : (b.unlisten topic1 id1).Registered topic id sp := by
  obtain ⟨td, htd, hid⟩ := hr
  cases hf : unordered_map.find b._topics topic1 with
  | none => rw [EventBus.unlisten_topics_none b topic1 id1 hf]; exact ⟨td, htd, hid⟩
  | some td1 =>
    by_cases ht : topic1 = topic
    · subst ht
      have hne : id1 ≠ id := by
        rcases h with h | h
        · exact absurd rfl h
        · exact h
      rw [htd] at hf
      cases hf
      refine EventBus.registered_of_assign _ _ _ _ _ _
        (EventBus.unlisten_topics_some b topic1 id1 td htd) ?_
      simp only
      rw [unordered_map.find_erase_other _ _ _ hne]
      exact hid
    · refine ⟨td, ?_, hid⟩
      rw [EventBus.unlisten_topics_some b topic1 id1 td1 hf,
        unordered_map.find_assign_other _ _ _ _ ht]
      exact htd

end DispatchTheorems

/-! ## Theorems: the life of a callback object -/

section OwnershipTheorems

variable {τ : Type} {V : τ → Type}

theorem owns_assign (td : TopicData τ V) (cbs : List (CallBackWPtr τ V)) (id : String)
    (sp : CallBackSPtr τ V) (a : Nat) :
    (⟨cbs, unordered_map.assign td.callbackMap id sp⟩ : TopicData τ V).owns a +
        (if (unordered_map.find td.callbackMap id).any (fun v => decide (v.addr = a))
          then 1 else 0) =
      td.owns a + (if sp.addr = a then 1 else 0) := by
  have := unordered_map.countP_assign (fun v : CallBackSPtr τ V => decide (v.addr = a))
    td.callbackMap id sp
  simpa [TopicData.owns] using this

theorem owns_erase_le (td : TopicData τ V) (cbs : List (CallBackWPtr τ V)) (id : String)
    (a : Nat) :
    (⟨cbs, unordered_map.erase td.callbackMap id⟩ : TopicData τ V).owns a ≤ td.owns a :=
  unordered_map.countP_erase_le _ _ _

/-- No call copies a `shared_ptr` that the registry already holds: `listen` does not raise
the use count of a callback object made earlier. -/
theorem EventBus.use_count_listen_le (b : EventBus τ V) (topic : String) (func : CallBack τ V)
    (a : Nat) (ha : a ≠ b.heap_next) :
    use_count (b.listen topic func).1._topics a ≤ use_count b._topics a := by
  have h1 := use_count_assign b._topics topic
    { callbacks :=
        ((unordered_map.find b._topics topic).getD
          { callbacks := [], callbackMap := [] }).callbacks ++ [⟨b.heap_next, func⟩],
      callbackMap :=
        unordered_map.assign
          ((unordered_map.find b._topics topic).getD
            { callbacks := [], callbackMap := [] }).callbackMap
          (to_string b._idCounter) ⟨b.heap_next, func⟩ } a
  rw [← EventBus.listen_topics] at h1
  have h2 := owns_assign
    ((unordered_map.find b._topics topic).getD { callbacks := [], callbackMap := [] })
    (((unordered_map.find b._topics topic).getD
          { callbacks := [], callbackMap := [] }).callbacks ++ [⟨b.heap_next, func⟩])
    (to_string b._idCounter) ⟨b.heap_next, func⟩ a
  have hne : ¬ b.heap_next = a := fun h => ha h.symm
  simp only [hne, if_false] at h2
  omega

theorem EventBus.use_count_unlisten_le (b : EventBus τ V) (topic id : String) (a : Nat) :
    use_count (b.unlisten topic id)._topics a ≤ use_count b._topics a := by
  cases hf : unordered_map.find b._topics topic with
  | none => rw [EventBus.unlisten_topics_none b topic id hf]
  | some td =>
    have h1 := use_count_assign b._topics topic
      { callbacks := td.callbacks.filter (fun wp =>
          !(wp.expired (unordered_map.assign b._topics topic
            { td with callbackMap := unordered_map.erase td.callbackMap id }))),
        callbackMap := unordered_map.erase td.callbackMap id } a
    rw [← EventBus.unlisten_topics_some b topic id td hf, hf] at h1
    have h2 := owns_erase_le td (td.callbacks.filter (fun wp =>
          !(wp.expired (unordered_map.assign b._topics topic
            { td with callbackMap := unordered_map.erase td.callbackMap id })))) id a
    simp only [Option.getD_some] at h1
    omega

end OwnershipTheorems

section SoleTheorems

variable {τ : Type} {V : τ → Type}

end SoleTheorems

/-! ## Theorems: registration, cancellation, publication -/

section BusClaims

variable {τ : Type} {V : τ → Type}

/-- A registration outlives every run without `unlisten` in which the counter does not come
back to the value that gave the registration its id. -/
theorem EventBus.registered_run (topic : String) (c₀ : Nat) (sp : CallBackSPtr τ V)
    (between : List (Call τ V)) :
    ∀ (b : EventBus τ V) (k : Nat), b.Registered topic (to_string c₀) sp →
      b._idCounter = (c₀ + 1 + k) % 2 ^ SIZE_BITS →
      k + nListens between < 2 ^ SIZE_BITS →
      (∀ c ∈ between, c.isUnlisten = false) →
      (b.run between).Registered topic (to_string c₀) sp := by
  induction between with
  | nil => intro b k hr _ _ _; exact hr
  | cons c cs ih =>
    intro b k hr hk hfew hno
    have hno1 : ∀ x ∈ cs, x.isUnlisten = false := fun x hx => hno x (List.mem_cons_of_mem _ hx)
    have hc := hno c (List.mem_cons_self _ _)
    simp only [EventBus.run]
    cases c with
    | listen t f =>
      have hn : nListens (Call.listen t f :: cs) = nListens cs + 1 := by
        simp [nListens, Call.isListen]
      rw [hn] at hfew
      refine ih _ (k + 1) ?_ ?_ (by omega) hno1
      · refine b.registered_listen_other topic _ sp hr t f (Or.inr ?_)
        intro h
        have := to_string_injective h
        rw [hk, two_pow_size_bits] at this
        rw [two_pow_size_bits] at hfew
        omega
      · simp only [EventBus.call, EventBus.listen_idCounter, hk]
        rw [two_pow_size_bits]
        omega
    | unlisten t i => simp [Call.isUnlisten] at hc
    | notify t p =>
      have hn : nListens (Call.notify t p :: cs) = nListens cs := by
        simp [nListens, Call.isListen]
      rw [hn] at hfew
      refine ih _ k ?_ ?_ hfew hno1
      · simpa [EventBus.Registered, EventBus.call, EventBus.notify_topics] using hr
      · simpa [EventBus.call, EventBus.notify_idCounter] using hk
    | getLatest t d =>
      have hn : nListens (Call.getLatest t d :: cs) = nListens cs := by
        simp [nListens, Call.isListen]
      rw [hn] at hfew
      exact ih _ k hr hk hfew hno1

/-- In every reachable state, after `listen(T, cb)` has returned `id`, and after any further
calls among which there is no `unlisten` and fewer than 2^64 `listen`, the id still names
the callback object made by that `listen`, and `notify(T, P)` dispatches that object exactly
once, running `cb` on a bundle equal to `P`. -/
theorem EventBus.Reachable.dispatched_once_few_listens (b : EventBus τ V) (hb : b.Reachable)
    (T : String) (cb : CallBack τ V) (between : List (Call τ V)) (P : PropertyMap τ V)
    (hno : ∀ c ∈ between, c.isUnlisten = false) (hfew : nListens between < 2 ^ SIZE_BITS) :
    ((b.listen T cb).1.run between).Registered T (b.listen T cb).2 ⟨b.heap_next, cb⟩ ∧
    dispatchesTo (((b.listen T cb).1.run between).notify T P).2 b.heap_next =
      [⟨⟨b.heap_next, cb⟩, P, cb P⟩] := by
  have hwf := hb.wellFormed
  have hreg : ((b.listen T cb).1.run between).Registered T (b.listen T cb).2
      ⟨b.heap_next, cb⟩ := by
    refine EventBus.registered_run T b._idCounter _ between _ 0
      (b.registered_listen_new T cb) ?_ (by omega) hno
    rw [EventBus.listen_idCounter]
  exact ⟨hreg, ((hwf.wf_listen T cb).wf_run between).dispatch_registered T _ _ hreg P⟩

/-- C7: in every reachable state with a callback registered under `T` that throws when run
on `P`, `notify(T, P)` returns to the publisher, having done to the bus what it does when no
callback throws, the throwing callback was dispatched once, and every other callback
registered under `T` is dispatched exactly once on `P`, wherever the throwing one stands in
the dispatch list. -/
theorem C7_throwing_callback_is_isolated (b : EventBus τ V) (hb : b.Reachable) (T : String)
    (P : PropertyMap τ V) (failing : String) (spf : CallBackSPtr τ V) (err : String)
    (hf : b.Registered T failing spf) (hthrow : spf.fn P = .error err) :
    (b.notify T P).1 = { b with _latestData := unordered_map.assign b._latestData T P } ∧
    dispatchesTo (b.notify T P).2 spf.addr = [⟨spf, P, .error err⟩] ∧
    ∀ (id : String) (sp : CallBackSPtr τ V), id ≠ failing → b.Registered T id sp →
      dispatchesTo (b.notify T P).2 sp.addr = [⟨sp, P, sp.fn P⟩] := by
  refine ⟨b.notify_fst T P, ?_, fun id sp _ hr => hb.wellFormed.dispatch_registered T id sp hr P⟩
  rw [hb.wellFormed.dispatch_registered T failing spf hf P, hthrow]

end BusClaims

/-! ## Theorems: the scenario of the sample program -/

/-- C8: on a fresh bus, `listen("DATA-UPDATE", cb)` returns "0"; `notify("DATA-UPDATE",
{size: int 3, value: double 0.5})` makes one dispatch, of `cb`, on a bundle in which
`get_cref<int>` of "size" returns 3 and `get_cref<double>` of "value" returns 0.5; after
`unlisten("DATA-UPDATE", "0")`, `notify("DATA-UPDATE", {size: 4})` makes no dispatch; and
`getLatest("DATA-UPDATE")` then returns true with exactly the bundle {size: 4}. -/
theorem C8_sample_scenario (cb : CallBack SampleType SampleType.Val)
    (data : PropertyMap SampleType SampleType.Val) :
    (EventBus.fresh.listen "DATA-UPDATE" cb).2 = "0" ∧
    ((scenario_listened cb).notify "DATA-UPDATE" bundle_size_value).2 =
      [⟨⟨0, cb⟩, bundle_size_value, cb bundle_size_value⟩] ∧
    (∃ size, unordered_map.find bundle_size_value "size" = some size ∧
      (size.get_cref SampleType.int).Returns (3 : Int)) ∧
    (∃ value, unordered_map.find bundle_size_value "value" = some value ∧
      (value.get_cref SampleType.double).Returns (0.5 : Float)) ∧
    ((scenario_unlistened cb).notify "DATA-UPDATE" bundle_size_four).2 = [] ∧
    (scenario_republished cb).getLatest "DATA-UPDATE" data = (true, bundle_size_four) ∧
    bundle_size_four = [("size", Property.ofValue SampleType.int (4 : Int))] := by
  refine ⟨rfl, rfl, ⟨_, rfl, rfl, rfl⟩, ⟨_, rfl, rfl, rfl⟩, rfl, rfl, rfl⟩

/-! ## Theorems: buses that differ by expired weak references -/

section SimulationTheorems

variable {τ : Type} {V : τ → Type}

theorem SameLive.use_count_eq {live : CallBackWPtr τ V → Bool}
    {m m1 : unordered_map String (TopicData τ V)} (h : List.Forall₂ (SameLive live) m m1)
    (a : Nat) : use_count m1 a = use_count m a := by
  induction h with
  | nil => rfl
  | cons hr _ ih =>
    rw [use_count_cons, use_count_cons, ih]
    simp only [TopicData.owns, hr.2.1]

theorem SameLive.expired_eq {live : CallBackWPtr τ V → Bool}
    {m m1 : unordered_map String (TopicData τ V)} (h : List.Forall₂ (SameLive live) m m1)
    (wp : CallBackWPtr τ V) : wp.expired m1 = wp.expired m := by
  simp only [CallBackWPtr.expired, SameLive.use_count_eq h]

theorem SameLive.lock_eq {live : CallBackWPtr τ V → Bool}
    {m m1 : unordered_map String (TopicData τ V)} (h : List.Forall₂ (SameLive live) m m1)
    (wp : CallBackWPtr τ V) : wp.lock m1 = wp.lock m := by
  simp only [CallBackWPtr.lock, SameLive.expired_eq h]

/-- Related registries answer `find` alike. -/
theorem SameLive.find {live : CallBackWPtr τ V → Bool}
    {m m1 : unordered_map String (TopicData τ V)} (h : List.Forall₂ (SameLive live) m m1)
    (k : String) :
    (unordered_map.find m k = none ∧ unordered_map.find m1 k = none) ∨
    ∃ td td1, unordered_map.find m k = some td ∧ unordered_map.find m1 k = some td1 ∧
      td.callbackMap = td1.callbackMap ∧ td.callbacks.filter live = td1.callbacks.filter live := by
  induction h with
  | nil => exact Or.inl ⟨rfl, rfl⟩
  | @cons t t1 l l1 hr _ ih =>
    obtain ⟨k₀, v₀⟩ := t
    obtain ⟨k₁, v₁⟩ := t1
    obtain ⟨hk, hm, hl⟩ := hr
    simp only at hk hm hl
    subst hk
    by_cases h0 : k₀ = k
    · exact Or.inr ⟨v₀, v₁, by simp [unordered_map.find, h0], by simp [unordered_map.find, h0],
        hm, hl⟩
    · simpa [unordered_map.find, h0] using ih

theorem SameLive.assign {live : CallBackWPtr τ V → Bool}
    {m m1 : unordered_map String (TopicData τ V)} (h : List.Forall₂ (SameLive live) m m1)
    (k : String) (v v1 : TopicData τ V) (hv : SameLive live (k, v) (k, v1)) :
    List.Forall₂ (SameLive live) (unordered_map.assign m k v) (unordered_map.assign m1 k v1) := by
  induction h with
  | nil => exact List.Forall₂.cons hv List.Forall₂.nil
  | @cons t t1 l l1 hr hrest ih =>
    obtain ⟨k₀, v₀⟩ := t
    obtain ⟨k₁, v₁⟩ := t1
    have hk : k₀ = k₁ := hr.1
    subst hk
    by_cases h0 : k₀ = k
    · simp only [unordered_map.assign, h0, if_true]
      exact List.Forall₂.cons hv hrest
    · simp only [unordered_map.assign, h0, if_false]
      exact List.Forall₂.cons hr ih

theorem filter_filter_of_imp {α : Type} (p q : α → Bool) (l : List α)
    (h : ∀ x ∈ l, q x = true → p x = true) : (l.filter p).filter q = l.filter q := by
  rw [List.filter_filter]
  apply List.filter_congr
  intro x hx
  cases hq : q x with
  | false => rfl
  | true => simp [h x hx hq]

/-- Related registries stay related when fewer weak references are selected. -/
theorem SameLive.weaken {live live1 : CallBackWPtr τ V → Bool}
    {m m1 : unordered_map String (TopicData τ V)} (h : List.Forall₂ (SameLive live) m m1)
    (hm : ∀ t ∈ m, ∀ wp ∈ t.2.callbacks, live1 wp = true → live wp = true)
    (hm1 : ∀ t ∈ m1, ∀ wp ∈ t.2.callbacks, live1 wp = true → live wp = true) :
    List.Forall₂ (SameLive live1) m m1 := by
  induction h with
  | nil => exact List.Forall₂.nil
  | @cons t t1 l l1 hr _ ih =>
    refine List.Forall₂.cons ⟨hr.1, hr.2.1, ?_⟩
      (ih (fun x hx => hm x (List.mem_cons_of_mem _ hx))
        (fun x hx => hm1 x (List.mem_cons_of_mem _ hx)))
    rw [← filter_filter_of_imp live live1 t.2.callbacks (hm t (List.mem_cons_self _ _)),
      ← filter_filter_of_imp live live1 t1.2.callbacks (hm1 t1 (List.mem_cons_self _ _)), hr.2.2]

theorem SameLive.refl (live : CallBackWPtr τ V → Bool)
    (m : unordered_map String (TopicData τ V)) : List.Forall₂ (SameLive live) m m := by
  induction m with
  | nil => exact List.Forall₂.nil
  | cons t l ih => exact List.Forall₂.cons ⟨rfl, rfl, rfl⟩ ih

end SimulationTheorems

section SimulationSteps

variable {τ : Type} {V : τ → Type}

theorem SameLive.same_getD {live : CallBackWPtr τ V → Bool}
    {m m1 : unordered_map String (TopicData τ V)} (h : List.Forall₂ (SameLive live) m m1)
    (k : String) :
    ((unordered_map.find m k).getD { callbacks := [], callbackMap := [] }).callbackMap =
      ((unordered_map.find m1 k).getD { callbacks := [], callbackMap := [] }).callbackMap ∧
    ((unordered_map.find m k).getD { callbacks := [], callbackMap := [] }).callbacks.filter live =
      ((unordered_map.find m1 k).getD
        { callbacks := [], callbackMap := [] }).callbacks.filter live := by
  rcases SameLive.find h k with ⟨h0, h1⟩ | ⟨td, td1, h0, h1, hm, hl⟩
  · simp [h0, h1]
  · simp [h0, h1, hm, hl]

theorem EventBus.Sim.sim_listen {b b1 : EventBus τ V} (h : b.Sim b1) (hb : b.WellFormed)
    (hb1 : b1.WellFormed) (T : String) (f : CallBack τ V) :
    (b.listen T f).1.Sim (b1.listen T f).1 ∧ (b.listen T f).2 = (b1.listen T f).2 := by
  refine ⟨⟨?_, ?_, ?_, ?_⟩, ?_⟩
  · simp only [EventBus.listen_idCounter, h.idCounter]
  · simp only [EventBus.listen_heap_next, h.heap]
  · simp only [EventBus.listen_latestData, h.latest]
  · have hw : List.Forall₂ (SameLive (fun wp => !wp.expired (b.listen T f).1._topics))
        b._topics b1._topics := by
      refine SameLive.weaken h.topics ?_ ?_
      · intro t ht wp hwp hl
        have hlt := hb.weak_lt t ht wp hwp
        have := b.use_count_listen_le T f wp.addr (Nat.ne_of_lt hlt)
        simp only [CallBackWPtr.expired, Bool.not_eq_true', decide_eq_false_iff_not] at hl ⊢
        omega
      · intro t ht wp hwp hl
        have hlt := hb1.weak_lt t ht wp hwp
        rw [h.heap] at hlt
        have := b.use_count_listen_le T f wp.addr (Nat.ne_of_lt hlt)
        simp only [CallBackWPtr.expired, Bool.not_eq_true', decide_eq_false_iff_not] at hl ⊢
        omega
    generalize (fun wp : CallBackWPtr τ V => !wp.expired (b.listen T f).1._topics) = live at hw ⊢
    obtain ⟨hm, hl⟩ := SameLive.same_getD hw T
    rw [EventBus.listen_topics, EventBus.listen_topics]
    refine SameLive.assign hw T _ _ ⟨rfl, ?_, ?_⟩
    · simp only [hm, h.idCounter, h.heap]
    · simp only [List.filter_append, hl, h.heap]
  · simp only [EventBus.listen_snd, h.idCounter]

theorem EventBus.Sim.sim_unlisten {b b1 : EventBus τ V} (h : b.Sim b1) (T id : String) :
    (b.unlisten T id).Sim (b1.unlisten T id) := by
  refine ⟨?_, ?_, ?_, ?_⟩
  · simp only [EventBus.unlisten_idCounter, h.idCounter]
  · simp only [EventBus.unlisten_heap_next, h.heap]
  · simp only [EventBus.unlisten_latestData, h.latest]
  · rcases SameLive.find h.topics T with ⟨h0, h1⟩ | ⟨td, td1, h0, h1, hm, hl⟩
    · rw [EventBus.unlisten_topics_none b T id h0, EventBus.unlisten_topics_none b1 T id h1]
      exact h.topics
    · have hE := SameLive.assign h.topics T
        { td with callbackMap := unordered_map.erase td.callbackMap id }
        { td1 with callbackMap := unordered_map.erase td1.callbackMap id }
        ⟨rfl, by simp only [hm], hl⟩
      have hexp : (fun wp : CallBackWPtr τ V => !wp.expired (unordered_map.assign b1._topics T
            { td1 with callbackMap := unordered_map.erase td1.callbackMap id })) =
          (fun wp : CallBackWPtr τ V => !wp.expired (unordered_map.assign b._topics T
            { td with callbackMap := unordered_map.erase td.callbackMap id })) := by
        funext wp
        rw [SameLive.expired_eq hE]
      have huc : ∀ a, use_count (b.unlisten T id)._topics a =
          use_count (unordered_map.assign b._topics T
            { td with callbackMap := unordered_map.erase td.callbackMap id }) a := by
        intro a
        have e1 := use_count_assign b._topics T
          { callbacks := td.callbacks.filter (fun wp =>
              !(wp.expired (unordered_map.assign b._topics T
                { td with callbackMap := unordered_map.erase td.callbackMap id }))),
            callbackMap := unordered_map.erase td.callbackMap id } a
        rw [← EventBus.unlisten_topics_some b T id td h0] at e1
        have e2 := use_count_assign b._topics T
          { td with callbackMap := unordered_map.erase td.callbackMap id } a
        simp only [TopicData.owns] at e1 e2
        omega
      have hlive : (fun wp : CallBackWPtr τ V => !wp.expired (b.unlisten T id)._topics) =
          (fun wp : CallBackWPtr τ V => !wp.expired (unordered_map.assign b._topics T
            { td with callbackMap := unordered_map.erase td.callbackMap id })) := by
        funext wp
        simp only [CallBackWPtr.expired, huc]
      rw [hlive]
      have hw : List.Forall₂ (SameLive (fun wp : CallBackWPtr τ V =>
          !wp.expired (unordered_map.assign b._topics T
            { td with callbackMap := unordered_map.erase td.callbackMap id })))
          b._topics b1._topics := by
        refine SameLive.weaken h.topics ?_ ?_
        · intro t _ wp _ hl1
          have := b.use_count_unlisten_le T id wp.addr
          rw [huc] at this
          simp only [CallBackWPtr.expired, Bool.not_eq_true', decide_eq_false_iff_not] at hl1 ⊢
          omega
        · intro t _ wp _ hl1
          have := b.use_count_unlisten_le T id wp.addr
          rw [huc] at this
          simp only [CallBackWPtr.expired, Bool.not_eq_true', decide_eq_false_iff_not] at hl1 ⊢
          omega
      rw [EventBus.unlisten_topics_some b T id td h0,
        EventBus.unlisten_topics_some b1 T id td1 h1, hexp]
      generalize (fun wp : CallBackWPtr τ V => !wp.expired (unordered_map.assign b._topics T
            { td with callbackMap := unordered_map.erase td.callbackMap id })) = live at hw ⊢
      refine SameLive.assign hw T _ _ ⟨rfl, by simp only [hm], ?_⟩
      rcases SameLive.find hw T with ⟨h2, _⟩ | ⟨td2, td3, h2, h3, _, hl2⟩
      · rw [h0] at h2; cases h2
      · rw [h0] at h2
        rw [h1] at h3
        cases h2
        cases h3
        simp only [List.filter_filter, Bool.and_self]
        exact hl2

theorem filterMap_filter_of_none {α γ : Type} (g : α → Option γ) (p : α → Bool)
    (h : ∀ x, p x = false → g x = none) (l : List α) :
    (l.filter p).filterMap g = l.filterMap g := by
  induction l with
  | nil => rfl
  | cons x xs ih =>
    cases hp : p x with
    | true => simp [List.filter_cons, hp, List.filterMap_cons, ih]
    | false => simp [List.filter_cons, hp, List.filterMap_cons, ih, h x hp]

theorem EventBus.Sim.sim_notify {b b1 : EventBus τ V} (h : b.Sim b1) (T : String)
    (P : PropertyMap τ V) :
    (b.notify T P).1.Sim (b1.notify T P).1 ∧ (b.notify T P).2 = (b1.notify T P).2 := by
  constructor
  · rw [EventBus.notify_fst, EventBus.notify_fst]
    exact ⟨h.idCounter, h.heap, by simp only [h.latest], h.topics⟩
  · rw [EventBus.notify_snd, EventBus.notify_snd]
    have hg : (fun cb : CallBackWPtr τ V =>
          match cb.lock b1._topics with
          | some callback => some (⟨callback, P, callback.fn P⟩ : Dispatch τ V)
          | none => none) =
        (fun cb : CallBackWPtr τ V =>
          match cb.lock b._topics with
          | some callback => some (⟨callback, P, callback.fn P⟩ : Dispatch τ V)
          | none => none) := by
      funext cb
      rw [SameLive.lock_eq h.topics]
    rcases SameLive.find h.topics T with ⟨h0, h1⟩ | ⟨td, td1, h0, h1, _, hl⟩
    · rw [h0, h1]
    · rw [h0, h1]
      simp only [hg]
      rw [← filterMap_filter_of_none _ (fun wp => !wp.expired b._topics) _ td.callbacks,
        ← filterMap_filter_of_none _ (fun wp => !wp.expired b._topics) _ td1.callbacks, hl]
      · intro wp hwp
        simp only [Bool.not_eq_false'] at hwp
        simp [CallBackWPtr.lock, hwp]
      · intro wp hwp
        simp only [Bool.not_eq_false'] at hwp
        simp [CallBackWPtr.lock, hwp]

theorem EventBus.Sim.sim_call {b b1 : EventBus τ V} (h : b.Sim b1) (hb : b.WellFormed)
    (hb1 : b1.WellFormed) (c : Call τ V) :
    (b.call c).1.Sim (b1.call c).1 ∧ (b.call c).2 = (b1.call c).2 := by
  cases c with
  | listen t f =>
    obtain ⟨h1, h2⟩ := h.sim_listen hb hb1 t f
    exact ⟨h1, by simp only [EventBus.call, h2]⟩
  | unlisten t i => exact ⟨h.sim_unlisten t i, rfl⟩
  | notify t p =>
    obtain ⟨h1, h2⟩ := h.sim_notify t p
    exact ⟨h1, by simp only [EventBus.call, h2]⟩
  | getLatest t d =>
    exact ⟨h, by simp only [EventBus.call, EventBus.getLatest, h.latest]⟩

theorem EventBus.Sim.returns {b b1 : EventBus τ V} (h : b.Sim b1) (hb : b.WellFormed)
    (hb1 : b1.WellFormed) (calls : List (Call τ V)) : b.returns calls = b1.returns calls := by
  induction calls generalizing b b1 with
  | nil => rfl
  | cons c cs ih =>
    obtain ⟨h1, h2⟩ := h.sim_call hb hb1 c
    simp only [EventBus.returns, h2, ih h1 (hb.wf_call c) (hb1.wf_call c)]

end SimulationSteps

section UnlistenNoop

variable {τ : Type} {V : τ → Type}

/-- An `unlisten` that finds no topic or no id leaves a bus that differs from the one before
by expired weak references only. -/
theorem EventBus.sim_unlisten_unknown (b : EventBus τ V) (T id : String)
    (h : unordered_map.find b._topics T = none ∨
      ∃ td, unordered_map.find b._topics T = some td ∧
        unordered_map.find td.callbackMap id = none) :
    b.Sim (b.unlisten T id) := by
  rcases h with h | ⟨td, htd, hid⟩
  · rw [EventBus.unlisten_topics_none b T id h]
    exact ⟨rfl, rfl, rfl, SameLive.refl _ _⟩
  · refine ⟨b.unlisten_idCounter T id, b.unlisten_heap_next T id, b.unlisten_latestData T id, ?_⟩
    rw [EventBus.unlisten_topics_some b T id td htd]
    have htd1 : ({ td with callbackMap := unordered_map.erase td.callbackMap id } : TopicData τ V)
        = td := by
      rw [unordered_map.erase_of_find_none _ _ hid]
    rw [htd1, unordered_map.assign_of_find _ _ _ htd, unordered_map.erase_of_find_none _ _ hid]
    have := SameLive.assign (SameLive.refl (fun wp => !wp.expired b._topics) b._topics) T td
      { callbacks := td.callbacks.filter (fun wp => !wp.expired b._topics),
        callbackMap := td.callbackMap }
      ⟨rfl, rfl, by simp only [List.filter_filter, Bool.and_self]⟩
    rw [unordered_map.assign_of_find _ _ _ htd] at this
    exact this

/-- C10: in every reachable state, `unlisten(T, id)` with `T` absent from the registry or
`id` not registered under `T` changes nothing a caller can see: every later `notify`, on any
topic, makes the same dispatches, `getLatest` gives the same result for every topic, and
every later sequence of calls returns what it returns without that `unlisten`; with `T`
absent the bus is the same. -/
theorem C10_unlisten_unknown_is_noop (b : EventBus τ V) (hb : b.Reachable) (T id : String)
    (h : unordered_map.find b._topics T = none ∨
      ∃ td, unordered_map.find b._topics T = some td ∧
        unordered_map.find td.callbackMap id = none) :
    (∀ (T1 : String) (P : PropertyMap τ V),
      ((b.unlisten T id).notify T1 P).2 = (b.notify T1 P).2) ∧
    (∀ (T1 : String) (data : PropertyMap τ V),
      (b.unlisten T id).getLatest T1 data = b.getLatest T1 data) ∧
    (∀ calls : List (Call τ V), (b.unlisten T id).returns calls = b.returns calls) ∧
    (unordered_map.find b._topics T = none → b.unlisten T id = b) := by
  have hs := b.sim_unlisten_unknown T id h
  refine ⟨fun T1 P => ((hs.sim_notify T1 P).2).symm, fun T1 data => ?_, fun calls => ?_,
    fun h0 => EventBus.unlisten_topics_none b T id h0⟩
  · simp only [EventBus.getLatest, hs.latest]
  · exact (hs.returns hb.wellFormed (hb.wellFormed.wf_unlisten T id) calls).symm

end UnlistenNoop

/-! ## Theorems: instances on the sample program -/

/-- Witness of C3: after `listen`, `notify {size: 3, value: 0.5}`, `unlisten`,
`notify {size: 4}`, `getLatest` gives {size: 4} for the topic, and nothing for another. -/
theorem C3_getLatest_is_last_published_witness :
    (EventBus.fresh.run
      [Call.listen "DATA-UPDATE" main_callback, Call.notify "DATA-UPDATE" bundle_size_value,
        Call.unlisten "DATA-UPDATE" "0", Call.notify "DATA-UPDATE" bundle_size_four]).getLatest
      "DATA-UPDATE" [] = (true, bundle_size_four) ∧
    (EventBus.fresh.run
      [Call.listen "DATA-UPDATE" main_callback, Call.notify "DATA-UPDATE" bundle_size_value,
        Call.unlisten "DATA-UPDATE" "0", Call.notify "DATA-UPDATE" bundle_size_four]).getLatest
      "OTHER" [] = (false, []) :=
  ⟨(C3_getLatest_is_last_published _ "DATA-UPDATE" []).2
      [Call.listen "DATA-UPDATE" main_callback, Call.notify "DATA-UPDATE" bundle_size_value,
        Call.unlisten "DATA-UPDATE" "0"] [] bundle_size_four rfl (by simp),
   (C3_getLatest_is_last_published _ "OTHER" []).1 (by simp [Call.publishes])⟩

/-- Witness of C4 (amended): three `listen` calls on two topics, with an `unlisten` of the
first id in between, return three different ids. -/
theorem C4_ids_distinct_below_wraparound_witness :
    (listenIds ((EventBus.fresh : EventBus SampleType SampleType.Val).returns
      [Call.listen "DATA-UPDATE" main_callback, Call.unlisten "DATA-UPDATE" "0",
        Call.listen "DATA-UPDATE" main_callback, Call.listen "OTHER" quiet_callback])).Nodup :=
  C4_ids_distinct_below_wraparound _ (by norm_num [nListens, Call.isListen, SIZE_BITS])

/-- Witness of C7: `main_callback` throws on a bundle without "time"; registered first or
second, it does not keep `quiet_callback` from its one dispatch. -/
theorem C7_throwing_callback_is_isolated_witness :
    main_callback bundle_size_value = .error "std::out_of_range" ∧
    dispatchesTo (bus_main_then_quiet.notify "DATA-UPDATE" bundle_size_value).2 1 =
      [⟨⟨1, quiet_callback⟩, bundle_size_value, .ok ()⟩] ∧
    dispatchesTo (bus_quiet_then_main.notify "DATA-UPDATE" bundle_size_value).2 0 =
      [⟨⟨0, quiet_callback⟩, bundle_size_value, .ok ()⟩] :=
  ⟨rfl,
   (C7_throwing_callback_is_isolated bus_main_then_quiet ⟨_, rfl⟩ "DATA-UPDATE"
      bundle_size_value "0" ⟨0, main_callback⟩ "std::out_of_range" ⟨_, rfl, rfl⟩ rfl).2.2 "1"
      ⟨1, quiet_callback⟩ (by decide) ⟨_, rfl, rfl⟩,
   (C7_throwing_callback_is_isolated bus_quiet_then_main ⟨_, rfl⟩ "DATA-UPDATE"
      bundle_size_value "1" ⟨1, main_callback⟩ "std::out_of_range" ⟨_, rfl, rfl⟩ rfl).2.2 "0"
      ⟨0, quiet_callback⟩ (by decide) ⟨_, rfl, rfl⟩⟩

/-- Witness of C10: with "0" the only id registered under "DATA-UPDATE", `unlisten` of the id
"7" there, and `unlisten` on a topic never used, change no later dispatch. -/
theorem C10_unlisten_unknown_is_noop_witness :
    ((bus_one_listener.unlisten "DATA-UPDATE" "7").notify "DATA-UPDATE" bundle_size_value).2 =
      (bus_one_listener.notify "DATA-UPDATE" bundle_size_value).2 ∧
    bus_one_listener.unlisten "OTHER" "0" = bus_one_listener :=
  ⟨(C10_unlisten_unknown_is_noop bus_one_listener ⟨_, rfl⟩ "DATA-UPDATE" "7"
      (Or.inr ⟨_, rfl, rfl⟩)).1 "DATA-UPDATE" bundle_size_value,
   (C10_unlisten_unknown_is_noop bus_one_listener ⟨_, rfl⟩ "OTHER" "0" (Or.inl rfl)).2.2.2 rfl⟩

/-! ## Theorems: construction, assignment, reset, swap and failed extraction -/

section PropertyAlgebra

variable {τ : Type} {V : τ → Type} [DecidableEq τ]

/-- C17: when `extract<T>` fails, on an empty box (EmptyAccess) or on a box holding a value
of another type (TypeMismatch), the box after the call is the box before it. -/
theorem C17_failed_extract_keeps_box (p : Property τ V) (T : τ) :
    (∀ e, (p.extract T).1.result = .error e → (p.extract T).2 = p) ∧
    (p.has_value = false → (p.extract T).1.EmptyAccess ∧ (p.extract T).2 = p) ∧
    (∀ (U : τ) (u : V U), p._value = some ⟨U, u⟩ → U ≠ T →
      (p.extract T).1.TypeMismatch T U ∧ (p.extract T).2 = p) := by
  refine ⟨?_, ?_, ?_⟩
  · intro e he
    unfold Property.extract at he ⊢
    by_cases h : p.has_value = true
    · simp only [h, Bool.not_true, Bool.false_eq_true, if_false] at he ⊢
      cases hc : any_cast T p._value with
      | ok v => rw [hc] at he; cases he
      | error x => rfl
    · simp [h]
  · intro h
    simp [Property.extract, h, Outcome.EmptyAccess]
  · intro U u h hne
    simp [Property.extract, Property.has_value, Property.type, h, any_cast_other T U u hne,
      Outcome.TypeMismatch]

/-- Witness of C17: `extract<int>` on a box holding the `double` 0.5, and on the empty box. -/
theorem C17_failed_extract_keeps_box_witness :
    ((@Property.ofValue SampleType SampleType.Val SampleType.double (0.5 : Float)).extract
        SampleType.int).2 =
      @Property.ofValue SampleType SampleType.Val SampleType.double (0.5 : Float) ∧
    ((@Property.empty SampleType SampleType.Val).extract SampleType.int).2 = Property.empty :=
  ⟨((C17_failed_extract_keeps_box
      (@Property.ofValue SampleType SampleType.Val SampleType.double (0.5 : Float))
      SampleType.int).2.2 SampleType.double (0.5 : Float) rfl (by decide)).2,
   ((C17_failed_extract_keeps_box (@Property.empty SampleType SampleType.Val)
      SampleType.int).2.1 rfl).2⟩

end PropertyAlgebra

section PropertyResetSwap

variable {τ : Type} {V : τ → Type}

/-- C13: `reset` leaves the box empty, `reset` twice gives the box `reset` once gives, and
`reset` of an empty box gives that box (the member is `noexcept`: it returns for every
box). -/
theorem C13_reset_empties_idempotent (p : Property τ V) :
    p.reset.has_value = false ∧ p.reset.reset = p.reset ∧
    (p.has_value = false → p.reset = p ∧ p.reset.has_value = false) := by
  refine ⟨rfl, rfl, fun h => ⟨?_, rfl⟩⟩
  obtain ⟨x⟩ := p
  cases x with
  | none => rfl
  | some s => simp [Property.has_value] at h

/-- Witness of C13, at the default-constructed box. -/
theorem C13_reset_empties_idempotent_witness :
    (@Property.empty SampleType SampleType.Val).reset = Property.empty ∧
    (@Property.empty SampleType SampleType.Val).reset.has_value = false :=
  (C13_reset_empties_idempotent (@Property.empty SampleType SampleType.Val)).2.2 rfl

/-- C14: `swap` returns for every pair of boxes (it is `noexcept`), after it the first box
is what the second was and the second what the first was (value and type, or emptiness),
and a second `swap` gives back both boxes. -/
theorem C14_swap_exchanges (a b : Property τ V) :
    (a.swap b).1 = b ∧ (a.swap b).2 = a ∧
    (a.swap b).1._value = b._value ∧ (a.swap b).2._value = a._value ∧
    (a.swap b).1.has_value = b.has_value ∧ (a.swap b).2.has_value = a.has_value ∧
    (a.swap b).1.type = b.type ∧ (a.swap b).2.type = a.type ∧
    ((a.swap b).1.swap (a.swap b).2) = (a, b) :=
  ⟨rfl, rfl, rfl, rfl, rfl, rfl, rfl, rfl, rfl⟩

end PropertyResetSwap

/-! ## Theorems: the registry and the cache do not touch each other -/

section FrameTheorems

variable {τ : Type} {V : τ → Type}

/-- C11: in every state of the bus (reachable or not), `listen` and `unlisten` leave the
result of `getLatest` unchanged for every topic; `notify(T, P)` leaves the whole registry
unchanged (every topic, its id-to-callback map and its dispatch list) and leaves the result
of `getLatest` unchanged for every topic other than `T`; `getLatest` leaves the bus as it
is. -/
theorem C11_registry_and_cache_independent (b : EventBus τ V) :
    (∀ (T : String) (cb : CallBack τ V) (T1 : String) (data : PropertyMap τ V),
      (b.listen T cb).1.getLatest T1 data = b.getLatest T1 data) ∧
    (∀ (T id T1 : String) (data : PropertyMap τ V),
      (b.unlisten T id).getLatest T1 data = b.getLatest T1 data) ∧
    (∀ (T : String) (P : PropertyMap τ V), (b.notify T P).1._topics = b._topics) ∧
    (∀ (T : String) (P : PropertyMap τ V) (T1 : String) (data : PropertyMap τ V), T1 ≠ T →
      (b.notify T P).1.getLatest T1 data = b.getLatest T1 data) ∧
    (∀ (T : String) (data : PropertyMap τ V), (b.call (Call.getLatest T data)).1 = b) := by
  refine ⟨fun T cb T1 data => rfl, fun T id T1 data => ?_, fun T P => b.notify_topics T P,
    fun T P T1 data hne => ?_, fun T data => rfl⟩
  · simp only [EventBus.getLatest, EventBus.unlisten_latestData]
  · simp only [EventBus.getLatest, EventBus.notify_fst]
    rw [unordered_map.find_assign_other _ _ _ _ (fun h => hne h.symm)]

end FrameTheorems

/-- Witness of C11: after `notify("DATA-UPDATE", {size: 3, value: 0.5})`, a `notify` on the
topic "OTHER" leaves `getLatest("DATA-UPDATE")` at that bundle. -/
theorem C11_registry_and_cache_independent_witness :
    ((scenario_published main_callback).notify "OTHER" bundle_size_four).1.getLatest
        "DATA-UPDATE" [] = (true, bundle_size_value) :=
  (C11_registry_and_cache_independent (scenario_published main_callback)).2.2.2.1
    "OTHER" bundle_size_four "DATA-UPDATE" [] (by decide)

/-! ## Theorems: topics are isolated from each other -/

section LocalityTheorems

variable {τ : Type} {V : τ → Type}

theorem getD_callbacks_mem (topics : unordered_map String (TopicData τ V)) (topic : String)
    (wp : CallBackWPtr τ V)
    (h : wp ∈ ((unordered_map.find topics topic).getD
      { callbacks := [], callbackMap := [] }).callbacks) :
    ∃ t ∈ topics, t.1 = topic ∧ wp ∈ t.2.callbacks := by
  cases hf : unordered_map.find topics topic with
  | none => simp [hf] at h
  | some td =>
    rw [hf] at h
    exact ⟨(topic, td), unordered_map.mem_of_find _ _ _ hf, rfl, h⟩

theorem getD_callbackMap_mem (topics : unordered_map String (TopicData τ V)) (topic : String)
    (e : String × CallBackSPtr τ V)
    (h : e ∈ ((unordered_map.find topics topic).getD
      { callbacks := [], callbackMap := [] }).callbackMap) :
    ∃ t ∈ topics, t.1 = topic ∧ e ∈ t.2.callbackMap := by
  cases hf : unordered_map.find topics topic with
  | none => simp [hf] at h
  | some td =>
    rw [hf] at h
    exact ⟨(topic, td), unordered_map.mem_of_find _ _ _ hf, rfl, h⟩

theorem EventBus.Local.local_fresh : (EventBus.fresh : EventBus τ V).Local := by
  intro t1 h1
  simp [EventBus.fresh] at h1

theorem EventBus.Local.local_listen {b : EventBus τ V} (hl : b.Local) (hb : b.WellFormed)
    (T : String) (f : CallBack τ V) : (b.listen T f).1.Local := by
  intro t1 h1 t2 h2 wp hwp e he hEq
  rw [EventBus.listen_topics] at h1 h2
  -- where the weak reference comes from
  have hwp1 : wp.addr = b.heap_next ∧ t1.1 = T ∨
      ∃ s1 ∈ b._topics, s1.1 = t1.1 ∧ wp ∈ s1.2.callbacks := by
    rcases unordered_map.mem_assign _ _ _ _ h1 with h | h
    · subst h
      rcases List.mem_append.1 hwp with h3 | h3
      · obtain ⟨s, hs, hk, hm⟩ := getD_callbacks_mem _ _ _ h3
        exact Or.inr ⟨s, hs, hk, hm⟩
      · simp only [List.mem_singleton] at h3
        subst h3
        exact Or.inl ⟨rfl, rfl⟩
    · exact Or.inr ⟨t1, h, rfl, hwp⟩
  -- where the owner comes from
  have he1 : e.2.addr = b.heap_next ∧ t2.1 = T ∨
      ∃ s2 ∈ b._topics, s2.1 = t2.1 ∧ e ∈ s2.2.callbackMap := by
    rcases unordered_map.mem_assign _ _ _ _ h2 with h | h
    · subst h
      rcases unordered_map.mem_assign _ _ _ _ he with h3 | h3
      · subst h3
        exact Or.inl ⟨rfl, rfl⟩
      · obtain ⟨s, hs, hk, hm⟩ := getD_callbackMap_mem _ _ _ h3
        exact Or.inr ⟨s, hs, hk, hm⟩
    · exact Or.inr ⟨t2, h, rfl, he⟩
  rcases hwp1 with ⟨ha, hk1⟩ | ⟨s1, hs1, hk1, hm1⟩
  · rcases he1 with ⟨_, hk2⟩ | ⟨s2, hs2, _, hm2⟩
    · rw [hk1, hk2]
    · have := hb.shared_lt s2 hs2 e hm2
      omega
  · rcases he1 with ⟨ha, _⟩ | ⟨s2, hs2, hk2, hm2⟩
    · have := hb.weak_lt s1 hs1 wp hm1
      omega
    · rw [← hk1, ← hk2]
      exact hl s1 hs1 s2 hs2 wp hm1 e hm2 hEq

theorem EventBus.Local.local_unlisten {b : EventBus τ V} (hl : b.Local) (T id : String) :
    (b.unlisten T id).Local := by
  cases hf : unordered_map.find b._topics T with
  | none => rw [EventBus.unlisten_topics_none b T id hf]; exact hl
  | some td =>
    have hm := unordered_map.mem_of_find _ _ _ hf
    intro t1 h1 t2 h2 wp hwp e he hEq
    rw [EventBus.unlisten_topics_some b T id td hf] at h1 h2
    have hwp1 : ∃ s1 ∈ b._topics, s1.1 = t1.1 ∧ wp ∈ s1.2.callbacks := by
      rcases unordered_map.mem_assign _ _ _ _ h1 with h | h
      · subst h
        exact ⟨(T, td), hm, rfl, (List.mem_filter.1 hwp).1⟩
      · exact ⟨t1, h, rfl, hwp⟩
    have he1 : ∃ s2 ∈ b._topics, s2.1 = t2.1 ∧ e ∈ s2.2.callbackMap := by
      rcases unordered_map.mem_assign _ _ _ _ h2 with h | h
      · subst h
        exact ⟨(T, td), hm, rfl, (unordered_map.mem_erase _ _ _ he).1⟩
      · exact ⟨t2, h, rfl, he⟩
    obtain ⟨s1, hs1, hk1, hm1⟩ := hwp1
    obtain ⟨s2, hs2, hk2, hm2⟩ := he1
    rw [← hk1, ← hk2]
    exact hl s1 hs1 s2 hs2 wp hm1 e hm2 hEq

theorem EventBus.Local.local_call {b : EventBus τ V} (hl : b.Local) (hb : b.WellFormed)
    (c : Call τ V) : (b.call c).1.Local := by
  cases c with
  | listen t f => exact hl.local_listen hb t f
  | unlisten t i => exact hl.local_unlisten t i
  | notify t p =>
    simp only [EventBus.call, EventBus.Local, EventBus.notify_topics]
    exact hl
  | getLatest t d => exact hl

theorem EventBus.Local.local_run {b : EventBus τ V} (hl : b.Local) (hb : b.WellFormed)
    (calls : List (Call τ V)) : (b.run calls).Local := by
  induction calls generalizing b with
  | nil => exact hl
  | cons c cs ih => exact ih (hl.local_call hb c) (hb.wf_call c)

theorem EventBus.Reachable.isLocal {b : EventBus τ V} (hb : b.Reachable) : b.Local := by
  obtain ⟨calls, rfl⟩ := hb
  exact EventBus.Local.local_fresh.local_run EventBus.WellFormed.fresh calls

/-- C18: in every reachable state, for a callback object registered under `T` and a topic
`T1` other than `T`: `notify(T1, P)` makes no dispatch to it; `unlisten(T1, id)` with the id
of its registration leaves it registered under `T`, and a `notify(T, P)` after that
`unlisten` dispatches it exactly once, on `P`. -/
theorem C18_topics_are_isolated (b : EventBus τ V) (hb : b.Reachable) (T T1 id : String)
    (sp : CallBackSPtr τ V) (hne : T1 ≠ T) (hr : b.Registered T id sp)
    (P : PropertyMap τ V) :
    dispatchesTo (b.notify T1 P).2 sp.addr = [] ∧
    (b.unlisten T1 id).Registered T id sp ∧
    dispatchesTo ((b.unlisten T1 id).notify T P).2 sp.addr = [⟨sp, P, sp.fn P⟩] := by
  have hr1 := b.registered_unlisten_other T id sp hr T1 id (Or.inl hne)
  refine ⟨?_, hr1, (hb.wellFormed.wf_unlisten T1 id).dispatch_registered T id sp hr1 P⟩
  obtain ⟨td, htd, hid⟩ := hr
  rw [EventBus.notify_snd]
  cases hf : unordered_map.find b._topics T1 with
  | none => rfl
  | some td1 =>
    simp only [dispatchesTo]
    rw [List.filter_eq_nil_iff]
    intro d hd
    obtain ⟨wp, hwp, hd1⟩ := List.mem_filterMap.1 hd
    cases hl : wp.lock b._topics with
    | none => simp [hl] at hd1
    | some s =>
      simp only [hl, Option.some.injEq] at hd1
      subst hd1
      simp only [decide_eq_true_eq]
      intro hEq
      rw [(CallBackWPtr.lock_addr wp _ s hl).1] at hEq
      exact hne (hb.isLocal (T1, td1) (unordered_map.mem_of_find _ _ _ hf) (T, td)
        (unordered_map.mem_of_find _ _ _ htd) wp hwp (id, sp)
        (unordered_map.mem_of_find _ _ _ hid) hEq)

end LocalityTheorems

/-! ## Theorems: one registration for each `listen` -/

section PerListenTheorems

variable {τ : Type} {V : τ → Type}

end PerListenTheorems

section PerListenClaim

variable {τ : Type} {V : τ → Type}

end PerListenClaim

/-! ## Theorems: the registry while the counter has not wrapped -/

section TightLemmas

variable {κ β : Type} [DecidableEq κ]

end TightLemmas

section TightTheorems

variable {τ : Type} {V : τ → Type}

end TightTheorems

section RegistryInvariantClaim

variable {τ : Type} {V : τ → Type}

end RegistryInvariantClaim

/-- C15 fails on the code: on the bus with one callback registered under "DATA-UPDATE",
`notify("DATA-UPDATE", {size: 3, value: 0.5})` returns to the publisher after the callback
has finished, not as soon as it is scheduled. -/
theorem C15_notify_returns_after_callback (cb : CallBack SampleType SampleType.Val) :
    (scenario_listened cb).notify_events "DATA-UPDATE" bundle_size_value =
      [Event.scheduled 0, Event.finished 0, Event.returned] := rfl

/-- Witness of C18: with `main_callback` registered under "DATA-UPDATE" (id "0") and
`quiet_callback` under "OTHER", a `notify` on "OTHER" makes no dispatch to the first, and
after `unlisten("OTHER", "0")` a `notify` on "DATA-UPDATE" dispatches it once. -/
theorem C18_topics_are_isolated_witness :
    dispatchesTo (bus_two_topics.notify "OTHER" bundle_size_value).2 0 = [] ∧
    dispatchesTo ((bus_two_topics.unlisten "OTHER" "0").notify "DATA-UPDATE"
        bundle_size_value).2 0 =
      [⟨⟨0, main_callback⟩, bundle_size_value, main_callback bundle_size_value⟩] :=
  ⟨(C18_topics_are_isolated bus_two_topics ⟨_, rfl⟩ "DATA-UPDATE" "OTHER" "0"
      ⟨0, main_callback⟩ (by decide) ⟨_, rfl, rfl⟩ bundle_size_value).1,
   (C18_topics_are_isolated bus_two_topics ⟨_, rfl⟩ "DATA-UPDATE" "OTHER" "0"
      ⟨0, main_callback⟩ (by decide) ⟨_, rfl, rfl⟩ bundle_size_value).2.2⟩

section ListenerClaim

variable {τ : Type} {V : τ → Type}

theorem weak_total_cons (t : String × TopicData τ V)
    (topics : unordered_map String (TopicData τ V)) :
    weak_total (t :: topics) = t.2.callbacks.length + weak_total topics := by
  simp [weak_total]

/-- The number of weak references stored, before and after `_topics[topic] = td`. -/
theorem weak_total_assign (topics : unordered_map String (TopicData τ V)) (topic : String)
    (td : TopicData τ V) :
    weak_total (unordered_map.assign topics topic td) +
        ((unordered_map.find topics topic).getD
          { callbacks := [], callbackMap := [] }).callbacks.length =
      weak_total topics + td.callbacks.length := by
  induction topics with
  | nil => simp [unordered_map.assign, unordered_map.find, weak_total]
  | cons t rest ih =>
    obtain ⟨k₀, v₀⟩ := t
    by_cases h0 : k₀ = topic
    · simp only [unordered_map.assign, h0, if_true, unordered_map.find, weak_total_cons,
        Option.getD_some]
      omega
    · simp only [unordered_map.assign, h0, if_false, unordered_map.find, weak_total_cons]
      omega

/-- Each `listen` stores one more weak reference. -/
theorem EventBus.weak_total_listen (b : EventBus τ V) (T : String) (f : CallBack τ V) :
    weak_total (b.listen T f).1._topics = weak_total b._topics + 1 := by
  have h := weak_total_assign b._topics T
    { callbacks :=
        ((unordered_map.find b._topics T).getD
          { callbacks := [], callbackMap := [] }).callbacks ++ [⟨b.heap_next, f⟩],
      callbackMap :=
        unordered_map.assign
          ((unordered_map.find b._topics T).getD
            { callbacks := [], callbackMap := [] }).callbackMap
          (to_string b._idCounter) ⟨b.heap_next, f⟩ }
  rw [← EventBus.listen_topics] at h
  simp only [List.length_append, List.length_singleton] at h
  omega

/-- Without `unlisten`, no weak reference leaves a dispatch list: a run stores one for each
of its `listen` calls. -/
theorem EventBus.weak_total_run (calls : List (Call τ V)) :
    ∀ b : EventBus τ V, (∀ c ∈ calls, c.isUnlisten = false) →
      weak_total (b.run calls)._topics = weak_total b._topics + nListens calls := by
  induction calls with
  | nil => intro b _; rfl
  | cons c cs ih =>
    intro b hno
    have hno1 : ∀ x ∈ cs, x.isUnlisten = false := fun x hx => hno x (List.mem_cons_of_mem _ hx)
    have hc := hno c (List.mem_cons_self _ _)
    simp only [EventBus.run]
    rw [ih _ hno1]
    cases c with
    | listen t f =>
      have hn : nListens (Call.listen t f :: cs) = nListens cs + 1 := by
        simp [nListens, Call.isListen]
      simp only [EventBus.call]
      rw [hn, EventBus.weak_total_listen]
      omega
    | unlisten t i => simp [Call.isUnlisten] at hc
    | notify t p =>
      have hn : nListens (Call.notify t p :: cs) = nListens cs := by
        simp [nListens, Call.isListen]
      simp only [EventBus.call, EventBus.notify_topics, hn]
    | getLatest t d =>
      have hn : nListens (Call.getLatest t d :: cs) = nListens cs := by
        simp [nListens, Call.isListen]
      simp only [EventBus.call, hn]

/-- C1: in every reachable state, after `listen(T, cb)` has returned `id` and after any
further calls among which there is no `unlisten`, in a state the memory of the process can
hold (`Fits`), the id still names the callback object made by that `listen`, and `notify(T,
P)` dispatches that object exactly once, running `cb` on a bundle equal to `P`. -/
theorem C1_listener_dispatched_once (b : EventBus τ V) (hb : b.Reachable) (T : String)
    (cb : CallBack τ V) (between : List (Call τ V)) (P : PropertyMap τ V)
    (hno : ∀ c ∈ between, c.isUnlisten = false)
    (hfits : ((b.listen T cb).1.run between).Fits) :
    ((b.listen T cb).1.run between).Registered T (b.listen T cb).2 ⟨b.heap_next, cb⟩ ∧
    dispatchesTo (((b.listen T cb).1.run between).notify T P).2 b.heap_next =
      [⟨⟨b.heap_next, cb⟩, P, cb P⟩] := by
  have h1 := EventBus.weak_total_run between (b.listen T cb).1 hno
  have h2 := b.weak_total_listen T cb
  have hfew : nListens between < 2 ^ SIZE_BITS := by
    unfold EventBus.Fits at hfits
    omega
  exact EventBus.Reachable.dispatched_once_few_listens b hb T cb between P hno hfew

end ListenerClaim

/-- Witness of C1: `listen`, then a `notify` on another topic and a second `listen`, then
the `notify`: the first callback object is dispatched once. -/
theorem C1_listener_dispatched_once_witness :
    dispatchesTo (((EventBus.fresh.listen "DATA-UPDATE" main_callback).1.run
      [Call.notify "OTHER" bundle_size_four, Call.listen "DATA-UPDATE" quiet_callback]).notify
        "DATA-UPDATE" bundle_size_value).2 0 =
      [⟨⟨0, main_callback⟩, bundle_size_value, main_callback bundle_size_value⟩] :=
  (C1_listener_dispatched_once EventBus.fresh ⟨[], rfl⟩ "DATA-UPDATE" main_callback
    [Call.notify "OTHER" bundle_size_four, Call.listen "DATA-UPDATE" quiet_callback]
    bundle_size_value (by simp [Call.isUnlisten])
    (by
      show (2 : Nat) < 2 ^ SIZE_BITS
      norm_num [SIZE_BITS])).2
